import Mathlib

/-!
A verification development for the iCal parsing engine in
`src/functions/calendar.js` of the argoroots-trmnl repository.

The JavaScript source manipulates instants through the host `Date` object.
Following ECMA-262 (the JavaScript specification), a time value is an integer
count of milliseconds since the epoch, and the civil (proleptic Gregorian,
UTC) calendar fields are recovered through `DayFromYear`, `YearFromTime`,
`MonthFromTime` and `DateFromTime`.  The host timezone of the deployment is
modelled as UTC, so local-time and UTC accessors coincide.  We embed those
ECMA definitions below; `Invalid Date` (NaN time values) is modelled by
`Option Int` at the points where the source can produce one.
-/

/-! ### Civil calendar arithmetic (ECMA-262 Day/Year/Month functions) -/

structure CivilDate where
  year : Int
  month : Int
  day : Int
deriving DecidableEq, Repr

/-- ECMA-262 DayFromYear: day number of 1 January of year `y`
(day 0 is 1970-01-01). Division is floor division, as all divisors are
positive and `Int` division in Lean is Euclidean. -/
def dayFromYear (y : Int) : Int :=
  365 * (y - 1970) + (y - 1969) / 4 - (y - 1901) / 100 + (y - 1601) / 400

/-- Proleptic Gregorian leap-year rule (ECMA-262 DaysInYear). -/
def isLeap (y : Int) : Bool := decide ((y % 4 = 0 ∧ y % 100 ≠ 0) ∨ y % 400 = 0)

theorem isLeap_true_iff {y : Int} :
    isLeap y = true ↔ ((y % 4 = 0 ∧ y % 100 ≠ 0) ∨ y % 400 = 0) := by
  simp [isLeap]

theorem isLeap_false_iff {y : Int} :
    isLeap y = false ↔ ¬((y % 4 = 0 ∧ y % 100 ≠ 0) ∨ y % 400 = 0) := by
  simp [isLeap]

/-- ECMA-262 YearFromTime at day granularity: the unique `y` with
`dayFromYear y ≤ d < dayFromYear (y+1)`, computed by an initial guess
followed by at most one correction in each direction. -/
def yearFromDay (d : Int) : Int :=
  let y0 := 1970 + 400 * d / 146097
  let y1 := if d < dayFromYear y0 then y0 - 1 else y0
  if dayFromYear (y1 + 1) ≤ d then y1 + 1 else y1

/-- The extra day contributed by a leap year. -/
def leapInt : Bool → Int
  | true => 1
  | false => 0

/-- Days strictly before (1-based) month `m` in a year, given its leap flag
(the cumulative table behind ECMA-262 MonthFromTime/DateFromTime). -/
def daysBeforeMonth (leap : Bool) (m : Int) : Int :=
  if m ≤ 1 then 0 else if m = 2 then 31 else
    (if m = 3 then 59 else if m = 4 then 90 else if m = 5 then 120
     else if m = 6 then 151 else if m = 7 then 181 else if m = 8 then 212
     else if m = 9 then 243 else if m = 10 then 273 else if m = 11 then 304
     else 334) + leapInt leap

/-- 1-based month containing day-of-year `doy` (ECMA-262 MonthFromTime,
shifted to 1-based months). -/
def monthFromDoy (leap : Bool) (doy : Int) : Int :=
  if doy < 31 then 1 else if doy < 59 + leapInt leap then 2
  else if doy < 90 + leapInt leap then 3 else if doy < 120 + leapInt leap then 4
  else if doy < 151 + leapInt leap then 5 else if doy < 181 + leapInt leap then 6
  else if doy < 212 + leapInt leap then 7 else if doy < 243 + leapInt leap then 8
  else if doy < 273 + leapInt leap then 9 else if doy < 304 + leapInt leap then 10
  else if doy < 334 + leapInt leap then 11 else 12

/-- Length of (1-based) month `m` in a year with the given leap flag. -/
def daysInMonthL (leap : Bool) (m : Int) : Int :=
  if m = 2 then 28 + leapInt leap
  else if m = 4 ∨ m = 6 ∨ m = 9 ∨ m = 11 then 30 else 31

def daysInMonth (y m : Int) : Int := daysInMonthL (isLeap y) m

/-- Civil date of day number `z` (ECMA-262 YearFromTime/MonthFromTime/
DateFromTime combined). -/
def civilFromDays (z : Int) : CivilDate :=
  let y := yearFromDay z
  let doy := z - dayFromYear y
  let m := monthFromDoy (isLeap y) doy
  ⟨y, m, doy - daysBeforeMonth (isLeap y) m + 1⟩

/-- Day number of a civil date (ECMA-262 MakeDay for an in-range month). -/
def daysFromCivil (c : CivilDate) : Int :=
  dayFromYear c.year + daysBeforeMonth (isLeap c.year) c.month + (c.day - 1)

def validCivil (c : CivilDate) : Prop :=
  1 ≤ c.month ∧ c.month ≤ 12 ∧ 1 ≤ c.day ∧ c.day ≤ daysInMonth c.year c.month

instance : DecidablePred validCivil := fun c => by
  unfold validCivil; infer_instance

/-- The civil date of the previous calendar day. -/
def predCivil (c : CivilDate) : CivilDate :=
  if 1 < c.day then ⟨c.year, c.month, c.day - 1⟩
  else if 1 < c.month then ⟨c.year, c.month - 1, daysInMonth c.year (c.month - 1)⟩
  else ⟨c.year - 1, 12, 31⟩

theorem dayFromYear_strictMono {a b : Int} (h : a < b) :
    dayFromYear a < dayFromYear b := by
  unfold dayFromYear; omega

theorem div4_step (y : Int) :
    (y + 1 - 1969) / 4 - (y - 1969) / 4 = if y % 4 = 0 then 1 else 0 := by
  split_ifs with h <;> omega

theorem div100_step (y : Int) :
    (y + 1 - 1901) / 100 - (y - 1901) / 100 = if y % 100 = 0 then 1 else 0 := by
  split_ifs with h <;> omega

theorem div400_step (y : Int) :
    (y + 1 - 1601) / 400 - (y - 1601) / 400 = if y % 400 = 0 then 1 else 0 := by
  split_ifs with h <;> omega

theorem daysInYear_eq (y : Int) :
    dayFromYear (y + 1) - dayFromYear y = 365 + leapInt (isLeap y) := by
  have h4 := div4_step y
  have h100 := div100_step y
  have h400 := div400_step y
  have hL : leapInt (isLeap y) =
      if (y % 4 = 0 ∧ y % 100 ≠ 0) ∨ y % 400 = 0 then 1 else 0 := by
    rcases h : isLeap y with _ | _
    · have h' := isLeap_false_iff.mp h
      rw [if_neg h']
      rfl
    · have h' := isLeap_true_iff.mp h
      rw [if_pos h']
      rfl
  rw [hL]
  unfold dayFromYear
  split_ifs at h4 h100 h400 ⊢ <;> omega

theorem yearFromDay_char (d : Int) :
    dayFromYear (yearFromDay d) ≤ d ∧ d < dayFromYear (yearFromDay d + 1) := by
  unfold yearFromDay dayFromYear
  dsimp only
  split_ifs <;> omega

theorem yearFromDay_eq {y d : Int} (h1 : dayFromYear y ≤ d)
    (h2 : d < dayFromYear (y + 1)) : yearFromDay d = y := by
  rcases yearFromDay_char d with ⟨c1, c2⟩
  rcases lt_trichotomy (yearFromDay d) y with h | h | h
  · have hle : yearFromDay d + 1 ≤ y := by omega
    have : dayFromYear (yearFromDay d + 1) ≤ dayFromYear y := by
      rcases lt_or_eq_of_le hle with h4 | h4
      · exact le_of_lt (dayFromYear_strictMono h4)
      · rw [h4]
    omega
  · exact h
  · have hle : y + 1 ≤ yearFromDay d := by omega
    have : dayFromYear (y + 1) ≤ dayFromYear (yearFromDay d) := by
      rcases lt_or_eq_of_le hle with h4 | h4
      · exact le_of_lt (dayFromYear_strictMono h4)
      · rw [h4]
    omega

/-- Day-number / civil-date roundtrip, day side: holds for every integer. -/
theorem daysFromCivil_civilFromDays (z : Int) :
    daysFromCivil (civilFromDays z) = z := by
  unfold daysFromCivil civilFromDays
  dsimp only
  ring

theorem leapInt_true : leapInt true = 1 := rfl

theorem leapInt_false : leapInt false = 0 := rfl

set_option maxRecDepth 4000 in
set_option maxHeartbeats 1000000 in
theorem month_valid (leap : Bool) (doy : Int) (h0 : 0 ≤ doy)
    (h1 : doy < 365 + leapInt leap) :
    1 ≤ monthFromDoy leap doy ∧ monthFromDoy leap doy ≤ 12 ∧
    1 ≤ doy - daysBeforeMonth leap (monthFromDoy leap doy) + 1 ∧
    doy - daysBeforeMonth leap (monthFromDoy leap doy) + 1 ≤
      daysInMonthL leap (monthFromDoy leap doy) := by
  have key : ∀ n : Nat, n < 366 → ∀ lp : Bool, ((n : Int) < 365 + leapInt lp →
      (1 ≤ monthFromDoy lp n ∧ monthFromDoy lp n ≤ 12 ∧
       1 ≤ (n : Int) - daysBeforeMonth lp (monthFromDoy lp n) + 1 ∧
       (n : Int) - daysBeforeMonth lp (monthFromDoy lp n) + 1 ≤
         daysInMonthL lp (monthFromDoy lp n))) := by decide
  have hcast : ((doy.toNat : Nat) : Int) = doy := by omega
  have hup : doy.toNat < 366 := by
    rcases leap with _ | _ <;> simp only [leapInt_true, leapInt_false] at h1 <;> omega
  have := key doy.toNat hup leap (by rw [hcast]; exact h1)
  rwa [hcast] at this

/-- `civilFromDays` always produces a valid civil date. -/
theorem validCivil_civilFromDays (z : Int) : validCivil (civilFromDays z) := by
  rcases yearFromDay_char z with ⟨c1, c2⟩
  have hy := daysInYear_eq (yearFromDay z)
  have hb := month_valid (isLeap (yearFromDay z)) (z - dayFromYear (yearFromDay z))
    (by omega) (by omega)
  unfold civilFromDays validCivil daysInMonth
  dsimp only
  exact ⟨hb.1, hb.2.1, hb.2.2.1, hb.2.2.2⟩

set_option maxRecDepth 4000 in
set_option maxHeartbeats 1000000 in
theorem month_round (leap : Bool) (m d : Int) (hm1 : 1 ≤ m) (hm2 : m ≤ 12)
    (hd1 : 1 ≤ d) (hd2 : d ≤ daysInMonthL leap m) :
    monthFromDoy leap (daysBeforeMonth leap m + (d - 1)) = m ∧
    0 ≤ daysBeforeMonth leap m + (d - 1) ∧
    daysBeforeMonth leap m + (d - 1) < 365 + leapInt leap := by
  have key : ∀ mn : Nat, mn < 12 → ∀ dn : Nat, dn < 31 → ∀ lp : Bool,
      (((dn : Int) + 1) ≤ daysInMonthL lp ((mn : Int) + 1) →
        (monthFromDoy lp (daysBeforeMonth lp ((mn : Int) + 1) + (((dn : Int) + 1) - 1)) =
          (mn : Int) + 1 ∧
         0 ≤ daysBeforeMonth lp ((mn : Int) + 1) + (((dn : Int) + 1) - 1) ∧
         daysBeforeMonth lp ((mn : Int) + 1) + (((dn : Int) + 1) - 1) <
           365 + leapInt lp)) := by decide
  have hdim : d ≤ 31 := by
    have := hd2
    unfold daysInMonthL at this
    rcases leap with _ | _ <;>
      simp only [leapInt_true, leapInt_false] at this <;> split_ifs at this <;> omega
  have hm : (((m - 1).toNat : Nat) : Int) + 1 = m := by omega
  have hd : (((d - 1).toNat : Nat) : Int) + 1 = d := by omega
  have := key (m - 1).toNat (by omega) (d - 1).toNat (by omega) leap
  rw [hm, hd] at this
  exact this hd2

/-- Civil-date / day-number roundtrip on valid civil dates. -/
theorem civilFromDays_daysFromCivil (c : CivilDate) (h : validCivil c) :
    civilFromDays (daysFromCivil c) = c := by
  obtain ⟨hm1, hm2, hd1, hd2⟩ := h
  rw [daysInMonth] at hd2
  have hr := month_round (isLeap c.year) c.month c.day hm1 hm2 hd1 hd2
  have hy : yearFromDay (daysFromCivil c) = c.year := by
    apply yearFromDay_eq
    · unfold daysFromCivil; omega
    · have := daysInYear_eq c.year
      unfold daysFromCivil; omega
  unfold civilFromDays
  dsimp only
  rw [hy]
  have hdoy : daysFromCivil c - dayFromYear c.year =
      daysBeforeMonth (isLeap c.year) c.month + (c.day - 1) := by
    unfold daysFromCivil; ring
  rw [hdoy, hr.1]
  cases c
  simp only [CivilDate.mk.injEq]
  refine ⟨by trivial, by trivial, by omega⟩

theorem daysInMonthL_pos (leap : Bool) (m : Int) : 1 ≤ daysInMonthL leap m := by
  rcases leap with _ | _ <;>
    (unfold daysInMonthL; simp only [leapInt_true, leapInt_false];
     split_ifs <;> omega)

theorem daysBeforeMonth_succ (leap : Bool) (m : Int) (h1 : 1 ≤ m) (h2 : m ≤ 11) :
    daysBeforeMonth leap (m + 1) = daysBeforeMonth leap m + daysInMonthL leap m := by
  have key : ∀ mn : Nat, mn < 11 → ∀ lp : Bool,
      daysBeforeMonth lp (((mn : Int) + 1) + 1) =
        daysBeforeMonth lp ((mn : Int) + 1) + daysInMonthL lp ((mn : Int) + 1) := by decide
  have hm : (((m - 1).toNat : Nat) : Int) + 1 = m := by omega
  have := key (m - 1).toNat (by omega) leap
  rwa [hm] at this

/-- Moving to the previous civil day decrements the day number by one. -/
theorem daysFromCivil_pred (c : CivilDate) (h : validCivil c) :
    daysFromCivil (predCivil c) = daysFromCivil c - 1 := by
  obtain ⟨hm1, hm2, hd1, hd2⟩ := h
  unfold predCivil
  split_ifs with h1 h2
  · unfold daysFromCivil; dsimp only; ring
  · unfold daysFromCivil daysInMonth
    dsimp only
    have hs := daysBeforeMonth_succ (isLeap c.year) (c.month - 1) (by omega) (by omega)
    have he : c.month - 1 + 1 = c.month := by ring
    rw [he] at hs
    omega
  · have hm : c.month = 1 := by omega
    have hd : c.day = 1 := by omega
    have hyd : dayFromYear c.year - dayFromYear (c.year - 1) =
        365 + leapInt (isLeap (c.year - 1)) := by
      have hde := daysInYear_eq (c.year - 1)
      have he : c.year - 1 + 1 = c.year := by ring
      rw [he] at hde
      omega
    unfold daysFromCivil
    dsimp only
    rw [hm, hd]
    rcases hL : isLeap (c.year - 1) with _ | _ <;>
      rw [hL] at hyd <;> simp only [leapInt_true, leapInt_false] at hyd <;>
      norm_num [daysBeforeMonth, leapInt] <;> omega

/-- The previous civil day of a valid civil date is valid. -/
theorem validCivil_pred (c : CivilDate) (h : validCivil c) :
    validCivil (predCivil c) := by
  obtain ⟨hm1, hm2, hd1, hd2⟩ := h
  unfold predCivil
  split_ifs with h1 h2
  · refine ⟨?_, ?_, ?_, ?_⟩ <;> unfold validCivil daysInMonth at * <;> dsimp only at * <;> omega
  · refine ⟨?_, ?_, ?_, ?_⟩ <;> dsimp only
    · omega
    · omega
    · exact daysInMonthL_pos _ _
    · exact le_refl _
  · refine ⟨?_, ?_, ?_, ?_⟩ <;> dsimp only
    · norm_num
    · norm_num
    · norm_num
    · unfold daysInMonth daysInMonthL
      norm_num

/-! ### Millisecond-level time values (ECMA-262 Date semantics, UTC host) -/

def msPerDay : Int := 86400000

/-- ECMA-262 Day(t). -/
def tsDay (ts : Int) : Int := ts / msPerDay

/-- ECMA-262 TimeWithinDay(t), in `[0, msPerDay)`. -/
def tsTod (ts : Int) : Int := ts % msPerDay

def civilOf (ts : Int) : CivilDate := civilFromDays (tsDay ts)

def jsGetFullYear (ts : Int) : Int := (civilOf ts).year

/-- ECMA-262 MonthFromTime is 0-based. -/
def jsGetMonth (ts : Int) : Int := (civilOf ts).month - 1

def jsGetDate (ts : Int) : Int := (civilOf ts).day

/-- ECMA-262 WeekDay(t); 1970-01-01 was a Thursday (= 4). -/
def jsGetDay (ts : Int) : Int := (tsDay ts + 4) % 7

def jsGetHours (ts : Int) : Int := tsTod ts / 3600000

def jsGetMinutes (ts : Int) : Int := tsTod ts % 3600000 / 60000

def jsGetSeconds (ts : Int) : Int := tsTod ts % 60000 / 1000

def jsGetMilliseconds (ts : Int) : Int := tsTod ts % 1000

/-- ECMA-262 MakeDay: the month argument is 0-based and normalised by
carrying whole years; the day argument is unconstrained (linear). -/
def jsMakeDay (y m dt : Int) : Int :=
  dayFromYear (y + m / 12) +
    daysBeforeMonth (isLeap (y + m / 12)) ((m % 12) + 1) + (dt - 1)

def mkTs (day tod : Int) : Int := day * msPerDay + tod

def jsSetDate (ts n : Int) : Int :=
  mkTs (jsMakeDay (jsGetFullYear ts) (jsGetMonth ts) n) (tsTod ts)

def jsSetMonth (ts m : Int) : Int :=
  mkTs (jsMakeDay (jsGetFullYear ts) m (jsGetDate ts)) (tsTod ts)

def jsSetFullYear (ts y : Int) : Int :=
  mkTs (jsMakeDay y (jsGetMonth ts) (jsGetDate ts)) (tsTod ts)

def jsSetHours (ts h mi s ms : Int) : Int :=
  mkTs (tsDay ts) (h * 3600000 + mi * 60000 + s * 1000 + ms)

theorem tsDay_tod (ts : Int) : tsDay ts * msPerDay + tsTod ts = ts := by
  unfold tsDay tsTod msPerDay
  omega

theorem tsTod_nonneg (ts : Int) : 0 ≤ tsTod ts ∧ tsTod ts < msPerDay := by
  unfold tsTod msPerDay
  omega

/-- For an in-range (1-based) month, `jsMakeDay` with the corresponding
0-based month agrees with `daysFromCivil` (for every day argument). -/
theorem jsMakeDay_eq_daysFromCivil (y m d : Int) (h1 : 1 ≤ m) (h2 : m ≤ 12) :
    jsMakeDay y (m - 1) d = daysFromCivil ⟨y, m, d⟩ := by
  unfold jsMakeDay daysFromCivil
  have e1 : (m - 1) / 12 = 0 := by omega
  have e2 : (m - 1) % 12 = m - 1 := by omega
  rw [e1, e2]
  have e3 : m - 1 + 1 = m := by ring
  rw [e3]
  dsimp only
  ring_nf

/-- `setDate` moves the instant by whole days: the difference between the
new and the old day-of-month, keeping the time within the day. -/
theorem jsSetDate_eq (ts n : Int) :
    jsSetDate ts n = ts + (n - jsGetDate ts) * msPerDay := by
  unfold jsSetDate jsGetDate jsGetFullYear jsGetMonth civilOf mkTs
  have hval := validCivil_civilFromDays (tsDay ts)
  obtain ⟨hm1, hm2, _, _⟩ := hval
  rw [jsMakeDay_eq_daysFromCivil _ _ _ hm1 hm2]
  have hlin : daysFromCivil ⟨(civilFromDays (tsDay ts)).year,
      (civilFromDays (tsDay ts)).month, n⟩ =
      daysFromCivil (civilFromDays (tsDay ts)) + (n - (civilFromDays (tsDay ts)).day) := by
    unfold daysFromCivil
    dsimp only
    ring
  rw [hlin, daysFromCivil_civilFromDays]
  have := tsDay_tod ts
  ring_nf
  omega

/-- `setHours` replaces the time within the current day. -/
theorem jsSetHours_eq (ts h mi s ms : Int) :
    jsSetHours ts h mi s ms =
      tsDay ts * msPerDay + (h * 3600000 + mi * 60000 + s * 1000 + ms) := by
  unfold jsSetHours mkTs
  rfl

/-! ### Rendering and parsing of date strings -/

def digitChar (n : Nat) : Char := Char.ofNat (48 + n % 10)

def pad2 (n : Int) : List Char :=
  [digitChar (n.toNat / 10 % 10), digitChar (n.toNat % 10)]

def pad3 (n : Int) : List Char :=
  [digitChar (n.toNat / 100 % 10), digitChar (n.toNat / 10 % 10), digitChar (n.toNat % 10)]

def pad4 (n : Int) : List Char :=
  [digitChar (n.toNat / 1000 % 10), digitChar (n.toNat / 100 % 10),
   digitChar (n.toNat / 10 % 10), digitChar (n.toNat % 10)]

def pad6 (n : Int) : List Char :=
  [digitChar (n.toNat / 100000 % 10), digitChar (n.toNat / 10000 % 10),
   digitChar (n.toNat / 1000 % 10), digitChar (n.toNat / 100 % 10),
   digitChar (n.toNat / 10 % 10), digitChar (n.toNat % 10)]

/-- Year rendering of `Date.prototype.toISOString`: four digits for years
0–9999, otherwise the expanded signed six-digit form. -/
def isoYearChars (y : Int) : List Char :=
  if 0 ≤ y ∧ y ≤ 9999 then pad4 y
  else (if y < 0 then '-' else '+') :: pad6 (if y < 0 then -y else y)

/-- `Date.prototype.toISOString` (always UTC, with milliseconds). -/
def toISOChars (ts : Int) : List Char :=
  isoYearChars (jsGetFullYear ts) ++
    '-' :: pad2 (civilOf ts).month ++ '-' :: pad2 (jsGetDate ts) ++
    'T' :: pad2 (jsGetHours ts) ++ ':' :: pad2 (jsGetMinutes ts) ++
    ':' :: pad2 (jsGetSeconds ts) ++ '.' :: pad3 (jsGetMilliseconds ts) ++ ['Z']

def dateToISOString (ts : Int) : String := ⟨toISOChars ts⟩

def isAsciiDigit (c : Char) : Bool := decide ('0' ≤ c ∧ c ≤ '9')

/-- The source's `.replace(/\.\d{3}Z$/, 'Z')`: drop a trailing
millisecond group from an ISO string. -/
def stripMsZ (s : String) : String :=
  match s.data.reverse with
  | 'Z' :: d1 :: d2 :: d3 :: '.' :: rest =>
    if isAsciiDigit d1 ∧ isAsciiDigit d2 ∧ isAsciiDigit d3 then
      ⟨(('Z' :: rest).reverse)⟩
    else s
  | _ => s

/-- The source's `.split('T')[0]`: the prefix before the first `T`. -/
def isoDatePart (s : String) : String := ⟨s.data.takeWhile (· ≠ 'T')⟩

def digitVal (c : Char) : Option Int :=
  if isAsciiDigit c then some ((c.toNat : Int) - 48) else none

def read2 (a b : Char) : Option Int := do
  let x ← digitVal a
  let y ← digitVal b
  pure (10 * x + y)

def read4 (a b c d : Char) : Option Int := do
  let x ← read2 a b
  let y ← read2 c d
  pure (100 * x + y)

/-- UTC instant of civil date plus time-of-day components. -/
def mkUTC (y mo d h mi se : Int) : Int :=
  daysFromCivil ⟨y, mo, d⟩ * msPerDay + h * 3600000 + mi * 60000 + se * 1000

/-- Calendar-validity check used by ISO date-time string parsing. -/
def validYMD (y mo d : Int) : Bool :=
  decide (1 ≤ mo ∧ mo ≤ 12 ∧ 1 ≤ d ∧ d ≤ daysInMonth y mo)

/-- Time-component validity of ISO strings; `24:00:00` is permitted and
normalises to the start of the next day (ECMA-262 Date Time String Format). -/
def validHMS (h mi se : Int) : Bool :=
  decide ((h ≤ 23 ∨ (h = 24 ∧ mi = 0 ∧ se = 0)) ∧ mi ≤ 59 ∧ se ≤ 59)

def parseYMDTHMS (y1 y2 y3 y4 m1 m2 d1 d2 h1 h2 i1 i2 s1 s2 : Char) : Option Int := do
  let y ← read4 y1 y2 y3 y4
  let mo ← read2 m1 m2
  let d ← read2 d1 d2
  let h ← read2 h1 h2
  let mi ← read2 i1 i2
  let se ← read2 s1 s2
  if validYMD y mo d ∧ validHMS h mi se then pure (mkUTC y mo d h mi se) else none

/-- `new Date(string)` on the string shapes the engine produces and consumes:
`YYYY-MM-DD` (UTC midnight), `YYYY-MM-DDTHH:MM:SS` (host-local time, i.e. UTC
in this model) and `YYYY-MM-DDTHH:MM:SSZ` (UTC).  Everything else is an
invalid date (`none`, ECMA NaN). -/
def jsParseDate (s : String) : Option Int :=
  match s.data with
  | [y1, y2, y3, y4, '-', m1, m2, '-', d1, d2] => do
    let y ← read4 y1 y2 y3 y4
    let mo ← read2 m1 m2
    let d ← read2 d1 d2
    if validYMD y mo d then pure (mkUTC y mo d 0 0 0) else none
  | [y1, y2, y3, y4, '-', m1, m2, '-', d1, d2, 'T', h1, h2, ':', i1, i2, ':', s1, s2] =>
    parseYMDTHMS y1 y2 y3 y4 m1 m2 d1 d2 h1 h2 i1 i2 s1 s2
  | [y1, y2, y3, y4, '-', m1, m2, '-', d1, d2, 'T', h1, h2, ':', i1, i2, ':', s1, s2, 'Z'] =>
    parseYMDTHMS y1 y2 y3 y4 m1 m2 d1 d2 h1 h2 i1 i2 s1 s2
  | _ => none

/-! ### String utilities of the source (`unescapeICS`, `cleanString`,
`cleanAddress`) modelled on character lists -/

/-- Global replacement of the two-character pattern `a b` by `r`,
scanning left to right and continuing after each replacement
(JavaScript `String.prototype.replace` with a global two-character
literal pattern). -/
def replace2 (a b r : Char) : List Char → List Char
  | [] => []
  | [c] => [c]
  | c :: d :: rest =>
    if c = a ∧ d = b then r :: replace2 a b r rest
    else c :: replace2 a b r (d :: rest)

/-- Global replacement of the single character `a` by the string `r`. -/
def replace1 (a : Char) (r : List Char) : List Char → List Char
  | [] => []
  | c :: rest => if c = a then r ++ replace1 a r rest else c :: replace1 a r rest

/-- The whitespace class of JavaScript regular expressions, restricted to
ASCII (the engine's data never carries the Unicode space characters). -/
def jsWhitespace (c : Char) : Bool :=
  decide (c = ' ' ∨ c = '\t' ∨ c = '\n' ∨ c = '\r' ∨ c.toNat = 11 ∨ c.toNat = 12)

/-- `.replace(/\s+/g, ' ')`: each maximal whitespace run becomes one
space (the flag records being inside a run; structural recursion so the
kernel can evaluate it). -/
def collapseWsAux : Bool → List Char → List Char
  | _, [] => []
  | inRun, c :: rest =>
    if jsWhitespace c then
      if inRun then collapseWsAux true rest
      else ' ' :: collapseWsAux true rest
    else c :: collapseWsAux false rest

def collapseWs (l : List Char) : List Char := collapseWsAux false l

/-- `.replace(/,\s*,/g, ',')`: a comma, optional whitespace and a second
comma collapse to one comma; scanning continues after the match.  The fuel
(initially the length, which bounds the number of steps) makes the
recursion structural so the kernel can evaluate it. -/
def collapseCommasF : Nat → List Char → List Char
  | 0, l => l
  | _ + 1, [] => []
  | fuel + 1, c :: rest =>
    if c = ',' ∧ (rest.dropWhile jsWhitespace).head? = some ',' then
      ',' :: collapseCommasF fuel (rest.dropWhile jsWhitespace).tail
    else c :: collapseCommasF fuel rest

def collapseCommas (l : List Char) : List Char := collapseCommasF l.length l

/-- JavaScript `String.prototype.trim` (ASCII whitespace). -/
def jsTrimChars (l : List Char) : List Char :=
  ((l.dropWhile jsWhitespace).reverse.dropWhile jsWhitespace).reverse

def jsTrim (s : String) : String := ⟨jsTrimChars s.data⟩

/-- The unescape chain of `unescapeICS` on characters, in source order
(backslash pairs are unescaped last). -/
def unescapeChars (l : List Char) : List Char :=
  replace2 '\\' '\\' '\\'
    (replace2 '\\' '"' '"'
      (replace2 '\\' ';' ';'
        (replace2 '\\' ',' ','
          (replace2 '\\' 't' '\t'
            (replace2 '\\' 'r' '\r'
              (replace2 '\\' 'N' '\n'
                (replace2 '\\' 'n' '\n' l)))))))

/-- `unescapeICS` of the source: empty (falsy) input yields the empty
string, otherwise the escape sequences are rewritten in order. -/
def unescapeICS (s : String) : String :=
  if s.isEmpty then "" else ⟨unescapeChars s.data⟩

/-- `cleanString` of the source (`undefined`/empty input is falsy). -/
def cleanString (os : Option String) : String :=
  match os with
  | none => ""
  | some s =>
    if s.isEmpty then ""
    else
      jsTrim ⟨collapseWs (replace1 '\r' [' ']
        (replace1 '\n' [' '] (unescapeChars s.data)))⟩

/-- `cleanAddress` of the source. -/
def cleanAddress (os : Option String) : String :=
  match os with
  | none => ""
  | some s =>
    if s.isEmpty then ""
    else
      jsTrim ⟨collapseWs (collapseCommas (replace1 '\r' [',', ' ']
        (replace1 '\n' [',', ' '] (unescapeChars s.data))))⟩

/-! ### ICS event records and the two-pass parser -/

/-- Raw property mapping of one VEVENT: an association list with the most
recent write first (last write wins on lookup), plus the three multi-valued
keys accumulated in order.  JavaScript object string keys behave this way
for the lookups the engine performs. -/
structure RawEvent where
  props : List (String × String)
  exdates : List String
  rdates : List String
  exrules : List String
deriving Repr

def RawEvent.empty : RawEvent := ⟨[], [], [], []⟩

def getProp (e : RawEvent) (k : String) : Option String :=
  (e.props.find? (fun p => p.1 == k)).map (·.2)

/-- JavaScript string truthiness for possibly-absent string values. -/
def truthy : Option String → Bool
  | none => false
  | some s => !s.isEmpty

/-- `a || b` on possibly-absent strings. -/
def jsOr (a b : Option String) : Option String :=
  match a with
  | some s => if s.isEmpty then b else some s
  | none => b

def tzGet (tz : List (String × String)) (k : String) : Option String :=
  (tz.find? (fun p => p.1 == k)).map (·.2)

def hasPrefixChars : List Char → List Char → Bool
  | [], _ => true
  | _ :: _, [] => false
  | p :: ps, c :: cs => p == c && hasPrefixChars ps cs

/-- The regex search `/TZID=([^:;]+)/`: first position where `TZID=` is
followed by at least one character other than `:` or `;`; positions with an
empty capture are skipped and the scan continues (regex backtracking). -/
def findTZID : List Char → Option String
  | [] => none
  | c :: rest =>
    if hasPrefixChars "TZID=".data (c :: rest) then
      let cap := ((c :: rest).drop 5).takeWhile (fun x => !(x == ':' || x == ';'))
      if cap.isEmpty then findTZID rest else some ⟨cap⟩
    else findTZID rest

def containsTZID (l : List Char) : Bool :=
  match l with
  | [] => hasPrefixChars "TZID=".data []
  | c :: rest => hasPrefixChars "TZID=".data (c :: rest) || containsTZID rest

/-- `parseEventProperty` of the source: split the line at the first colon,
strip parameters from the key, store multi-valued keys as lists and other
keys with overwrite, and record a timezone context from a `TZID=` parameter. -/
def parseEventProperty (line : String) (ev : RawEvent) (tz : List (String × String)) :
    RawEvent × List (String × String) :=
  match line.data.findIdx? (· = ':') with
  | none => (ev, tz)
  | some 0 => (ev, tz)
  | some i =>
    let key : String := jsTrim ⟨line.data.take i⟩
    let value : String := jsTrim ⟨line.data.drop (i + 1)⟩
    let baseKey : String := ⟨key.data.takeWhile (· ≠ ';')⟩
    let ev' :=
      if baseKey = "EXDATE" then { ev with exdates := ev.exdates ++ [value] }
      else if baseKey = "RDATE" then { ev with rdates := ev.rdates ++ [value] }
      else if baseKey = "EXRULE" then { ev with exrules := ev.exrules ++ [value] }
      else if key ≠ baseKey then
        { ev with props := (key, value) :: (baseKey, value) :: ev.props }
      else { ev with props := (baseKey, value) :: ev.props }
    let tz' :=
      if containsTZID key.data then
        match findTZID key.data with
        | some tzid => (baseKey, tzid) :: tz
        | none => tz
      else tz
    (ev', tz')

structure EventData where
  event : RawEvent
  timezones : List (String × String)
deriving Repr

structure ParsedEvents where
  mains : List EventData
  excs : List (String × List EventData)
deriving Repr

def excAdd : List (String × List EventData) → String → EventData →
    List (String × List EventData)
  | [], uid, ed => [(uid, [ed])]
  | (k, v) :: rest, uid, ed =>
    if k = uid then (k, v ++ [ed]) :: rest else (k, v) :: excAdd rest uid ed

def excGet (m : List (String × List EventData)) (uid : String) :
    Option (List EventData) :=
  (m.find? (fun p => p.1 == uid)).map (·.2)

structure ParseState where
  mains : List EventData
  excs : List (String × List EventData)
  cur : Option (RawEvent × List (String × String))

/-- One line of the grouping pass of `parseEventsFromLines`. -/
def stepLine (st : ParseState) (line : String) : ParseState :=
  if hasPrefixChars "BEGIN:VEVENT".data line.data then
    { st with cur := some (RawEvent.empty, []) }
  else if hasPrefixChars "END:VEVENT".data line.data then
    match st.cur with
    | some (ev, tz) =>
      if truthy (getProp ev "RECURRENCE-ID") then
        if truthy (getProp ev "UID") then
          { mains := st.mains,
            excs := excAdd st.excs ((getProp ev "UID").getD "") ⟨ev, tz⟩,
            cur := none }
        else { st with cur := none }
      else { mains := st.mains ++ [⟨ev, tz⟩], excs := st.excs, cur := none }
    | none => st
  else
    match st.cur with
    | some (ev, tz) => { st with cur := some (parseEventProperty line ev tz) }
    | none => st

def parseEventsFromLines (lines : List String) : ParsedEvents :=
  let st := lines.foldl stepLine ⟨[], [], none⟩
  ⟨st.mains, st.excs⟩

/-- JS `String.prototype.split` with a single-character separator (an empty
input yields one empty piece, a trailing separator yields a trailing empty
piece).  Structural recursion, unlike `String.split`, so the kernel can
evaluate it. -/
def splitChar (sep : Char) : List Char → List (List Char)
  | [] => [[]]
  | c :: rest =>
    if c = sep then [] :: splitChar sep rest
    else
      match splitChar sep rest with
      | h :: t => (c :: h) :: t
      | [] => [[c]]

def jsSplit (s : String) (sep : Char) : List String :=
  (splitChar sep s.data).map (fun l => ⟨l⟩)

/-- `unfoldICSLines` of the source: split on newlines; a line starting with
a space or tab continues the previous logical line with its first character
removed; other lines are trimmed. -/
def unfoldStep : List String × String → String → List String × String
  | (acc, cur), line =>
    if hasPrefixChars [' '] line.data || hasPrefixChars ['\t'] line.data then
      (acc, cur ++ ⟨line.data.drop 1⟩)
    else
      (if cur ≠ "" then acc ++ [cur] else acc, jsTrim line)

def unfoldICSLines (icsData : String) : List String :=
  let r := (jsSplit icsData '\n').foldl unfoldStep ([], "")
  if r.2 ≠ "" then r.1 ++ [r.2] else r.1

/-! ### Deletion classifier and RRULE parsing -/

/-- ASCII uppercase mapping (`String.prototype.toUpperCase`; the strings
compared against are ASCII). -/
def upChar (c : Char) : Char :=
  if 'a' ≤ c ∧ c ≤ 'z' then Char.ofNat (c.toNat - 32) else c

def jsToUpper (s : String) : String := ⟨s.data.map upChar⟩

def hexDigitVal (c : Char) : Option Nat :=
  if '0' ≤ c ∧ c ≤ '9' then some (c.toNat - 48)
  else if 'a' ≤ c ∧ c ≤ 'f' then some (c.toNat - 87)
  else if 'A' ≤ c ∧ c ≤ 'F' then some (c.toNat - 55)
  else none

def decDigits (l : List Char) : Nat :=
  l.foldl (fun a c => 10 * a + (c.toNat - 48)) 0

def hexDigits (l : List Char) : Nat :=
  l.foldl (fun a c => 16 * a + ((hexDigitVal c).getD 0)) 0

/-- JavaScript `parseInt` with no radix argument: leading whitespace, an
optional sign, then either a `0x`/`0X` hexadecimal literal or a run of
decimal digits; `none` is NaN. -/
def jsParseInt (s : String) : Option Int :=
  let l := s.data.dropWhile jsWhitespace
  let core : List Char → Int → Option Int := fun l sign =>
    match l with
    | '0' :: x :: rest =>
      if x = 'x' ∨ x = 'X' then
        let hs := rest.takeWhile (fun c => (hexDigitVal c).isSome)
        if hs.isEmpty then none else some (sign * (hexDigits hs : Int))
      else
        let ds := ('0' :: x :: rest).takeWhile isAsciiDigit
        some (sign * (decDigits ds : Int))
    | _ =>
      let ds := l.takeWhile isAsciiDigit
      if ds.isEmpty then none else some (sign * (decDigits ds : Int))
  match l with
  | '-' :: rest => core rest (-1)
  | '+' :: rest => core rest 1
  | rest => core rest 1

/-- `isEventDeleted` of the source.  The `TRANSP` block of the source is a
no-op (it deliberately never returns) and contributes nothing. -/
def isEventDeleted (ev : RawEvent) : Bool :=
  (truthy (getProp ev "STATUS") &&
    jsToUpper ((getProp ev "STATUS").getD "") == "CANCELLED") ||
  (truthy (getProp ev "METHOD") &&
    jsToUpper ((getProp ev "METHOD").getD "") == "CANCEL") ||
  (truthy (getProp ev "SEQUENCE") &&
    (match jsParseInt ((getProp ev "SEQUENCE").getD "") with
     | some n => decide (100 < n)
     | none => false)) ||
  (truthy (getProp ev "X-APPLE-DELETED-DATE") || truthy (getProp ev "X-APPLE-DELETED")) ||
  (truthy (getProp ev "X-GOOGLE-DELETED") || getProp ev "STATUS" == some "DELETED") ||
  (!truthy (getProp ev "DTSTART") && !truthy (getProp ev "SUMMARY"))

structure RRuleParams where
  freq : Option String
  untilv : Option String
  count : Option Int
  interval : Option Int
  byday : Option (List String)
deriving Repr

/-- `parseRRule` of the source.  `count` is `none` for an absent `COUNT`
or a NaN parse (both are falsy where `count` is consumed); `interval` is
`none` for a NaN parse of a present `INTERVAL` and defaults to 1. -/
def parseRRule (rrule : String) : RRuleParams :=
  let params : List (String × String) :=
    (jsSplit rrule ';').foldl (fun acc param =>
      match jsSplit param '=' with
      | k :: v :: _ => if k ≠ "" ∧ v ≠ "" then (k, v) :: acc else acc
      | _ => acc) []
  let lookup : String → Option String := fun k =>
    ((params.find? (fun p => p.1 == k)).map (·.2))
  { freq := lookup "FREQ"
    untilv := lookup "UNTIL"
    count := match lookup "COUNT" with
      | some v => jsParseInt v
      | none => none
    interval := match lookup "INTERVAL" with
      | some v => jsParseInt v
      | none => some 1
    byday := (lookup "BYDAY").map (jsSplit · ',') }

/-! ### The Date/Timezone Normalizer (`formatDateToISO`) -/

/-- `^\d{8}T\d{6}Z$` -/
def shapeCompactUTC : List Char → Bool
  | [a, b, c, d, e, f, g, h, 'T', i, j, k, l, m, n, 'Z'] =>
    [a, b, c, d, e, f, g, h, i, j, k, l, m, n].all isAsciiDigit
  | _ => false

/-- `^\d{8}T\d{6}$` -/
def shapeCompactLocal : List Char → Bool
  | [a, b, c, d, e, f, g, h, 'T', i, j, k, l, m, n] =>
    [a, b, c, d, e, f, g, h, i, j, k, l, m, n].all isAsciiDigit
  | _ => false

/-- `^\d{8}$` -/
def shapeCompactDate : List Char → Bool
  | [a, b, c, d, e, f, g, h] => [a, b, c, d, e, f, g, h].all isAsciiDigit
  | _ => false

/-- `^GMT[+-]\d{4}$` -/
def shapeGMT : List Char → Bool
  | ['G', 'M', 'T', sgn, a, b, c, d] =>
    (sgn == '+' || sgn == '-') && [a, b, c, d].all isAsciiDigit
  | _ => false

/-- The signed minute offset of a `GMT±HHMM` string
(`sign * (hours * 60 + minutes)`). -/
def gmtOffsetMinutes (l : List Char) : Int :=
  match l with
  | [_, _, _, sgn, a, b, c, d] =>
    (if sgn = '+' then 1 else -1) *
      ((decDigits [a, b] : Int) * 60 + (decDigits [c, d] : Int))
  | _ => 0

/-- Rearrange `YYYYMMDDTHHMMSS(Z)` digits into ISO punctuation. -/
def compactToIsoChars (l : List Char) : List Char :=
  match l with
  | a :: b :: c :: d :: e :: f :: g :: h :: _ :: i :: j :: k :: m :: n :: o :: rest =>
    [a, b, c, d, '-', e, f, '-', g, h, 'T', i, j, ':', k, m, ':', n, o] ++ rest
  | _ => l

/-- Rearrange `YYYYMMDD` digits into `YYYY-MM-DD`. -/
def compactToDateChars (l : List Char) : List Char :=
  match l with
  | [a, b, c, d, e, f, g, h] => [a, b, c, d, '-', e, f, '-', g, h]
  | _ => l

/-- Host timezone database oracle: given an IANA zone name and the parsed
local instant, the offset (in milliseconds) that the source's
`Intl`-roundtrip computes, or `none` when the name is unrecognised and the
`toLocaleString` call throws. -/
abbrev ZoneOracle := String → Int → Option Int

/-- `formatDateToISO` of the source.  The outer `Option` is exception
propagation: `none` is an uncaught `RangeError` from `toISOString` on an
invalid date, reachable only on the `FULL_DAY_END` path (every other
`toISOString` sits inside the `try` and falls back to the local string). -/
def formatDateToISO (dateString : Option String) (timezone : Option String)
    (zoneOff : ZoneOracle) : Option String :=
  match dateString with
  | none => some ""
  | some ds =>
    if ds.isEmpty then some ""
    else if shapeCompactUTC ds.data then some ⟨compactToIsoChars ds.data⟩
    else if shapeCompactLocal ds.data then
      let isoString : String := ⟨compactToIsoChars ds.data⟩
      match timezone with
      | none => some isoString
      | some tzs =>
        if tzs.isEmpty then some isoString
        else if shapeGMT tzs.data then
          match jsParseDate isoString with
          | some t =>
            some (stripMsZ (dateToISOString (t - gmtOffsetMinutes tzs.data * 60000)))
          | none => some isoString
        else
          match jsParseDate isoString with
          | some t =>
            match zoneOff tzs t with
            | some off => some (stripMsZ (dateToISOString (t + off)))
            | none => some isoString
          | none => some isoString
    else if shapeCompactDate ds.data then
      let dateOnly : String := ⟨compactToDateChars ds.data⟩
      if timezone = some "FULL_DAY_END" then
        match jsParseDate dateOnly with
        | some t => some (isoDatePart (dateToISOString (jsSetDate t (jsGetDate t - 1))))
        | none => none
      else some dateOnly
    else some ds

/-! ### Occurrence records and the Recurrence Expander -/

/-- An emitted occurrence record: a subset of the five fields, `none`
meaning the field is absent.  `stop` is the record's `end` field
(`end` is reserved in Lean). -/
structure Occurrence where
  start : Option String
  stop : Option String
  title : Option String
  description : Option String
  address : Option String
deriving DecidableEq, Repr

/-- The `eventData` object assembled by `generateRecurringEvents`;
`endv` is `""` when the source holds `null` (both are falsy wherever the
field is consumed). -/
structure EventCore where
  start : String
  endv : String
  title : String
  description : String
  address : String
deriving Repr

def calculateDuration (start endv : String) : Option Int :=
  if endv.isEmpty ∨ start.isEmpty then some 0
  else
    match jsParseDate endv, jsParseDate start with
    | some e, some s => some (e - s)
    | _, _ => none

/-- `^\d{8}T\d{6}Z?$` (the UNTIL date-time shapes). -/
def shapeUntilDT (l : List Char) : Bool :=
  shapeCompactUTC l || shapeCompactLocal l

/-- `setupDateLimits` of the source.  An invalid `untilDate` collapses to
`none`: a null bound skips the check and a NaN bound never compares true,
which coincide.  `UNTIL` is formatted with no timezone argument, so this
call cannot reach the throwing path. -/
def setupDateLimits (start : String) (untilv : Option String) (count : Option Int)
    (zoneOff : ZoneOracle) : Option Int × Option Int × Int :=
  let currentDate := jsParseDate start
  let untilDate : Option Int :=
    match untilv with
    | none => none
    | some u =>
      if shapeCompactDate u.data then jsParseDate ⟨compactToDateChars u.data⟩
      else if shapeUntilDT u.data then
        match formatDateToISO (some u) none zoneOff with
        | some f => jsParseDate f
        | none => none
      else none
  let maxOccurrences : Int :=
    match count with
    | some c => if c ≠ 0 then c else 100
    | none => 100
  (currentDate, untilDate, maxOccurrences)

def dayMapGet : String → Option Int
  | "SU" => some 0
  | "MO" => some 1
  | "TU" => some 2
  | "WE" => some 3
  | "TH" => some 4
  | "FR" => some 5
  | "SA" => some 6
  | _ => none

/-- `shouldIncludeDate` of the source; an invalid cursor compares false
against every weekday (NaN equality). -/
def shouldIncludeDate (cur : Option Int) (freq : Option String)
    (byday : Option (List String)) : Bool :=
  match byday, freq with
  | some bd, some f =>
    if f = "WEEKLY" then
      match cur with
      | some t => bd.any (fun day => dayMapGet day == some (jsGetDay t))
      | none => false
    else true
  | _, _ => true

/-- `^\d{4}-\d{2}-\d{2}$` (the all-day start shape). -/
def shapeDashDate : List Char → Bool
  | [a, b, c, d, '-', e, f, '-', g, h] => [a, b, c, d, e, f, g, h].all isAsciiDigit
  | _ => false

/-- `isDateExcluded` of the source: day-level string comparison for all-day
events, minute-level comparison of parsed instants for timed events (an
invalid date on either side compares false through NaN). -/
def isDateExcluded (eventStart : String) (exdates : List String) (isAllDay : Bool) :
    Bool :=
  exdates.any fun exdate =>
    if isAllDay then isoDatePart exdate == eventStart
    else
      match jsParseDate exdate, jsParseDate eventStart with
      | some a, some b =>
        (civilOf a).year == (civilOf b).year &&
        (civilOf a).month == (civilOf b).month &&
        (civilOf a).day == (civilOf b).day &&
        jsGetHours a == jsGetHours b &&
        jsGetMinutes a == jsGetMinutes b
      | _, _ => false

/-- `createExceptionEvent` of the source; `none` is a thrown exception from
the normaliser. -/
def createExceptionEvent (exc : EventData) (zoneOff : ZoneOracle) :
    Option Occurrence := do
  let start ← formatDateToISO (getProp exc.event "DTSTART")
    (tzGet exc.timezones "DTSTART") zoneOff
  let endv ← (if truthy (getProp exc.event "DTEND") then
      formatDateToISO (getProp exc.event "DTEND") (tzGet exc.timezones "DTEND") zoneOff
    else pure "")
  let title := cleanString (getProp exc.event "SUMMARY")
  let description := cleanString (getProp exc.event "DESCRIPTION")
  let address := cleanAddress (getProp exc.event "LOCATION")
  pure
    { start := if start.isEmpty then none else some start
      stop := if endv.isEmpty then none else some endv
      title := if title.isEmpty then none else some title
      description := if description.isEmpty then none else some description
      address := if address.isEmpty then none else some address }

def createNormalEvent (eventStart eventEnd : String) (ed : EventCore) : Occurrence :=
  { start := if eventStart.isEmpty then none else some eventStart
    stop := if eventEnd.isEmpty then none else some eventEnd
    title := if ed.title.isEmpty then none else some ed.title
    description := if ed.description.isEmpty then none else some ed.description
    address := if ed.address.isEmpty then none else some ed.address }

def mapGet (m : List (String × EventData)) (k : String) : Option EventData :=
  (m.find? (fun p => p.1 == k)).map (·.2)

def optGt0 : Option Int → Bool
  | some d => decide (0 < d)
  | none => false

/-- The `eventStart` local of `createOccurrence`: date-only for an all-day
base start, full UTC instant otherwise. -/
def tentativeStart (t : Int) (ed : EventCore) : String :=
  if shapeDashDate ed.start.data then isoDatePart (dateToISOString t)
  else stripMsZ (dateToISOString t)

/-- The `eventEnd` local of `createOccurrence`. -/
def tentativeEnd (t : Int) (ed : EventCore) (durationMs : Option Int) : String :=
  if shapeDashDate ed.start.data then
    if ¬ed.endv.isEmpty then
      isoDatePart (dateToISOString
        (if optGt0 durationMs then t + durationMs.getD 0 else t))
    else ""
  else
    if optGt0 durationMs then stripMsZ (dateToISOString (t + durationMs.getD 0))
    else ""

/-- `createOccurrence` of the source.  Outer `none` is a thrown exception
(an invalid cursor's `toISOString`, or a throw inside
`createExceptionEvent`); `some none` is the source's `null` (an excluded
date). -/
def createOccurrence (cur : Option Int) (ed : EventCore) (durationMs : Option Int)
    (exdates : List String) (excMap : List (String × EventData))
    (zoneOff : ZoneOracle) : Option (Option Occurrence) :=
  match cur with
  | none => none
  | some t =>
    let isAllDay := shapeDashDate ed.start.data
    let eventStart : String := tentativeStart t ed
    let eventEnd : String := tentativeEnd t ed durationMs
    if isDateExcluded eventStart exdates isAllDay then some none
    else
      match mapGet excMap eventStart with
      | some exc => (createExceptionEvent exc zoneOff).map some
      | none => some (some (createNormalEvent eventStart eventEnd ed))

/-- The scanning loop of `advanceToNextWeeklyDay`: the first
`daysToAdd ∈ [1, bound]` whose weekday (starting from `startDay`) is in the
`BYDAY` set.  The fuel is exactly the number of loop iterations. -/
def findWeeklyStep (bd : List String) : Int → Int → Nat → Option Int
  | _, _, 0 => none
  | dta, next, Nat.succ fuel =>
    if bd.any (fun day => dayMapGet day == some next) then some dta
    else findWeeklyStep bd (dta + 1) ((next + 1) % 7) fuel

/-- `advanceToNextWeeklyDay` of the source; `none` is an invalid cursor
(NaN interval or an unknown weekday code in `byday[0]`). -/
def advanceToNextWeeklyDay (t : Int) (bd : List String) (interval : Option Int) :
    Option Int :=
  match interval with
  | none => none
  | some i =>
    match findWeeklyStep bd 1 ((jsGetDay t + 1) % 7) (7 * i).toNat with
    | some dta => some (jsSetDate t (jsGetDate t + dta))
    | none =>
      let t2 := jsSetDate t (jsGetDate t + 7 * i)
      match dayMapGet (bd.headD "") with
      | some target =>
        some (jsSetDate t2 (jsGetDate t2 + (target - jsGetDay t2 + 7) % 7))
      | none => none

/-- `advanceToNextDate` of the source; `none` (invalid cursor) propagates
and a NaN interval poisons the cursor. -/
def advanceToNextDate (cur : Option Int) (freq : Option String)
    (interval : Option Int) (byday : Option (List String)) : Option Int :=
  match cur with
  | none => none
  | some t =>
    match freq with
    | some "YEARLY" =>
      (interval).map (fun i => jsSetFullYear t (jsGetFullYear t + i))
    | some "MONTHLY" =>
      (interval).map (fun i => jsSetMonth t (jsGetMonth t + i))
    | some "WEEKLY" =>
      match byday with
      | some bd =>
        if 1 < bd.length then advanceToNextWeeklyDay t bd interval
        else (interval).map (fun i => jsSetDate t (jsGetDate t + 7 * i))
      | none => (interval).map (fun i => jsSetDate t (jsGetDate t + 7 * i))
    | some "DAILY" =>
      (interval).map (fun i => jsSetDate t (jsGetDate t + i))
    | _ => some (jsSetFullYear t (jsGetFullYear t + 10))

def twoYearsMs : Int := 63072000000

/-- The loop guard `currentDate <= new Date(Date.now() + ...)`; false for
an invalid cursor. -/
def cursorWithinHorizon (cur : Option Int) (horizon : Int) : Bool :=
  match cur with
  | some t => decide (t ≤ horizon)
  | none => false

/-- The `untilDate && currentDate > untilDate` break condition. -/
def untilExceeded (untilDate cur : Option Int) : Bool :=
  match untilDate, cur with
  | some u, some t => decide (u < t)
  | _, _ => false

/-- The `while` loop of `generateOccurrences`, with explicit fuel: each
fuel step is one loop iteration.  When the fuel runs out while the loop
would continue, the occurrences collected so far are returned; theorems
about the loop quantify over sufficient fuel. -/
def genLoop (zoneOff : ZoneOracle) (now : Int) (ed : EventCore)
    (freq : Option String) (untilDate : Option Int) (maxOcc : Int)
    (interval : Option Int) (byday : Option (List String))
    (exdates : List String) (excMap : List (String × EventData))
    (durationMs : Option Int) : Nat → Option Int → Int → Option (List Occurrence)
  | 0, _, _ => some []
  | Nat.succ fuel, cur, cnt =>
    if decide (cnt < maxOcc) && cursorWithinHorizon cur (now + twoYearsMs) then
      if untilExceeded untilDate cur then some []
      else if shouldIncludeDate cur freq byday then
        match createOccurrence cur ed durationMs exdates excMap zoneOff with
        | none => none
        | some none =>
          genLoop zoneOff now ed freq untilDate maxOcc interval byday exdates
            excMap durationMs fuel (advanceToNextDate cur freq interval byday) cnt
        | some (some occ) =>
          (genLoop zoneOff now ed freq untilDate maxOcc interval byday exdates
            excMap durationMs fuel (advanceToNextDate cur freq interval byday)
            (cnt + 1)).map (occ :: ·)
      else
        genLoop zoneOff now ed freq untilDate maxOcc interval byday exdates
          excMap durationMs fuel (advanceToNextDate cur freq interval byday) cnt
    else some []

/-- `generateOccurrences` of the source. -/
def generateOccurrences (zoneOff : ZoneOracle) (now : Int) (fuel : Nat)
    (ed : EventCore) (rp : RRuleParams) (exdates : List String)
    (excMap : List (String × EventData)) : Option (List Occurrence) :=
  if ¬truthy rp.freq then some []
  else
    let durationMs := calculateDuration ed.start ed.endv
    let l := setupDateLimits ed.start rp.untilv rp.count zoneOff
    genLoop zoneOff now ed rp.freq l.2.1 l.2.2 rp.interval rp.byday exdates excMap
      durationMs fuel l.1 0

/-- `generateRecurringEvents` of the source. -/
def generateRecurringEvents (zoneOff : ZoneOracle) (now : Int) (fuel : Nat)
    (ev : RawEvent) (tz : List (String × String)) (excs : List EventData) :
    Option (List Occurrence) := do
  if ¬truthy (getProp ev "RRULE") then pure []
  else
    let start ← formatDateToISO (getProp ev "DTSTART") (tzGet tz "DTSTART") zoneOff
    if start.isEmpty then pure []
    else
      let endv ← (match getProp ev "DTEND" with
        | some de =>
          if ¬de.isEmpty then
            if shapeCompactDate de.data then
              formatDateToISO (some de) (some "FULL_DAY_END") zoneOff
            else formatDateToISO (some de) (tzGet tz "DTEND") zoneOff
          else pure ""
        | none => pure "")
      let rp := parseRRule ((getProp ev "RRULE").getD "")
      let exdates ← ev.exdates.foldlM (fun acc exdate => do
        let f ← formatDateToISO (some exdate)
          (jsOr (tzGet tz "EXDATE") (tzGet tz "DTSTART")) zoneOff
        pure (if ¬f.isEmpty then acc ++ [f] else acc)) []
      let excMap ← excs.foldlM (fun m exc => do
        if truthy (getProp exc.event "RECURRENCE-ID") then
          let f ← formatDateToISO (getProp exc.event "RECURRENCE-ID")
            (jsOr (tzGet exc.timezones "RECURRENCE-ID") (tzGet tz "DTSTART")) zoneOff
          pure (if ¬f.isEmpty then (f, exc) :: m else m)
        else pure m) []
      let ed : EventCore :=
        { start := start, endv := endv,
          title := cleanString (getProp ev "SUMMARY")
          description := cleanString (getProp ev "DESCRIPTION")
          address := cleanAddress (getProp ev "LOCATION") }
      generateOccurrences zoneOff now fuel ed rp exdates excMap

/-- `createEventFromData` of the source (the single, non-recurring path);
the outer `Option` is exception propagation, the inner one the source's
`null` for an event with no usable start. -/
def createEventFromData (ev : RawEvent) (tz : List (String × String))
    (zoneOff : ZoneOracle) : Option (Option Occurrence) := do
  let start ← formatDateToISO (getProp ev "DTSTART") (tzGet tz "DTSTART") zoneOff
  let endv ← (match getProp ev "DTEND" with
    | some de =>
      if ¬de.isEmpty then
        if shapeCompactDate de.data then
          formatDateToISO (some de) (some "FULL_DAY_END") zoneOff
        else formatDateToISO (some de) (tzGet tz "DTEND") zoneOff
      else pure ""
    | none => pure "")
  let title := cleanString (getProp ev "SUMMARY")
  let description := cleanString (getProp ev "DESCRIPTION")
  let address := cleanAddress (getProp ev "LOCATION")
  let occ : Occurrence :=
    { start := if start.isEmpty then none else some start
      stop := if endv.isEmpty then none else some endv
      title := if title.isEmpty then none else some title
      description := if description.isEmpty then none else some description
      address := if address.isEmpty then none else some address }
  pure (if ¬start.isEmpty then some occ else none)

/-- The per-event body of the `forEach` in `parseICS`: a deleted base event
contributes nothing; an event with a (truthy) `RRULE` is expanded with its
exception instances; any other event is emitted directly when it has a
start. -/
def processMainEvent (zoneOff : ZoneOracle) (now : Int) (fuel : Nat)
    (excs : List (String × List EventData)) (edata : EventData) :
    Option (List Occurrence) :=
  if isEventDeleted edata.event then some []
  else if truthy (getProp edata.event "RRULE") then
    generateRecurringEvents zoneOff now fuel edata.event edata.timezones
      (match getProp edata.event "UID" with
       | some u => (excGet excs u).getD []
       | none => [])
  else
    (createEventFromData edata.event edata.timezones zoneOff).map
      (fun r => match r with
        | some occ => [occ]
        | none => [])

/-- `parseICS` of the source. -/
def parseICS (zoneOff : ZoneOracle) (now : Int) (fuel : Nat) (icsData : String) :
    Option (List Occurrence) :=
  let pe := parseEventsFromLines (unfoldICSLines icsData)
  pe.mains.foldlM
    (fun acc m => (processMainEvent zoneOff now fuel pe.excs m).map (acc ++ ·)) []

/-! ### The Result Selector (`filterAndSortEvents`) and the boundary (`main`) -/

def occSortKey (o : Occurrence) : Option Int := jsParseDate (o.start.getD "")

/-- The sort comparator `new Date(a.start) - new Date(b.start)`.  For
elements whose start does not parse the comparator returns NaN and
ECMA-262 leaves the order implementation-defined; the model keys such
elements as 0.  Theorems about the sort assume parseable starts. -/
def occLe (a b : Occurrence) : Bool :=
  decide ((occSortKey a).getD 0 ≤ (occSortKey b).getD 0)

/-- `filterAndSortEvents` of the source, with the invocation instant `now`
passed explicitly. -/
def filterAndSortEvents (now : Int) (events : List Occurrence) : List Occurrence :=
  let yesterday := jsSetHours (jsSetDate now (jsGetDate now - 1)) 23 59 59 999
  let validEvents := events.filter (fun e =>
    if truthy e.start then
      match jsParseDate ((jsOr e.stop e.start).getD "") with
      | some et => decide (yesterday < et)
      | none => false
    else false)
  (validEvents.mergeSort occLe).take 25

structure FetchResp where
  ok : Bool
  statusText : String
  text : String

/-- A response body of `main`: either a human-readable message string or
the occurrence list. -/
inductive MainBody where
  | message (s : String)
  | events (l : List Occurrence)
deriving DecidableEq, Repr

/-- `main` of the source, with the fetch collaborator passed as an oracle.
The outer `Option` is exception propagation out of the engine. -/
def mainHandler (zoneOff : ZoneOracle) (now : Int) (fuel : Nat)
    (fetchO : String → FetchResp) (url : Option String) : Option MainBody :=
  if ¬truthy url then some (MainBody.message "No URL provided")
  else
    let resp := fetchO (url.getD "")
    if ¬resp.ok then
      some (MainBody.message ("Error fetching data: " ++ resp.statusText))
    else
      (parseICS zoneOff now fuel resp.text).map
        (fun evs => MainBody.events (filterAndSortEvents now evs))

/-! ### Helper lemmas for the claims -/

theorem replace2_of_not_mem (a b r : Char) :
    ∀ l : List Char, a ∉ l → replace2 a b r l = l := by
  intro l
  induction l with
  | nil => intro _; rfl
  | cons c rest ih =>
    intro h
    match rest with
    | [] => rfl
    | d :: rest' =>
      rw [replace2]
      rw [if_neg]
      · rw [ih (by simp at h; simp [h])]
      · intro hc
        exact h (by simp [hc.1.symm])

theorem unescapeChars_of_noBS (l : List Char) (h : '\\' ∉ l) :
    unescapeChars l = l := by
  unfold unescapeChars
  rw [replace2_of_not_mem _ _ _ _ h, replace2_of_not_mem _ _ _ _ h,
    replace2_of_not_mem _ _ _ _ h, replace2_of_not_mem _ _ _ _ h,
    replace2_of_not_mem _ _ _ _ h, replace2_of_not_mem _ _ _ _ h,
    replace2_of_not_mem _ _ _ _ h, replace2_of_not_mem _ _ _ _ h]

theorem string_mk_data (s : String) : (⟨s.data⟩ : String) = s := rfl

/-! ### Claim C3 -/

/-- C3 counterexample: `unescapeICS` is not idempotent on its own outputs.
For the five-character input `\\\\n`, one application yields `\\⏎` (the
final backslash-pair pass creates a fresh `\\` pair out of the second and
third backslashes), and a second application contracts that pair again. -/
theorem C3_counterexample :
    unescapeICS (unescapeICS "\\\\\\\\n") ≠ unescapeICS "\\\\\\\\n" := by
  decide

/-- `unescapeICS` is the identity on strings with no backslash. -/
theorem unescapeICS_id_of_noBS (y : String) (h : '\\' ∉ y.data) :
    unescapeICS y = y := by
  unfold unescapeICS
  split
  · rename_i hemp
    exact ((String.isEmpty_iff y).mp hemp).symm
  · rw [unescapeChars_of_noBS _ h, string_mk_data]

/-- C3 (amended): `unescapeICS` is the identity on backslash-free text, so
applying it twice agrees with applying it once whenever the first
application produced a backslash-free result; idempotence fails in general
(see the counterexample). -/
theorem C3_unescape_idempotent_on_backslash_free (x : String)
    (h : '\\' ∉ (unescapeICS x).data) :
    unescapeICS (unescapeICS x) = unescapeICS x :=
  unescapeICS_id_of_noBS (unescapeICS x) h

/-- C3 witness: a concrete backslash-free instance. -/
theorem C3_witness :
    unescapeICS (unescapeICS "Family dinner, 7pm; bring cake") =
      unescapeICS "Family dinner, 7pm; bring cake" :=
  C3_unescape_idempotent_on_backslash_free "Family dinner, 7pm; bring cake" (by decide)

/-! ### Claim C6 -/

theorem isEmpty_false_of_ne (s : String) (h : s ≠ "") : s.isEmpty = false := by
  rcases he : s.isEmpty with _ | _
  · rfl
  · exact absurd ((String.isEmpty_iff s).mp he) h

/-- C6: a base event whose STATUS equals CANCELLED (case-insensitively)
is classified deleted, and the per-event body of `parseICS` emits zero
occurrences for it — even when the event carries an RRULE, since the
deletion test precedes the recurrence branch. -/
theorem C6_cancelled_base_event_contributes_nothing
    (zoneOff : ZoneOracle) (now : Int) (fuel : Nat)
    (excs : List (String × List EventData)) (ev : RawEvent)
    (tz : List (String × String)) (s : String)
    (hs : getProp ev "STATUS" = some s) (hne : s ≠ "")
    (hup : jsToUpper s = "CANCELLED") :
    isEventDeleted ev = true ∧
      processMainEvent zoneOff now fuel excs ⟨ev, tz⟩ = some [] := by
  have hemp := isEmpty_false_of_ne s hne
  have hdel : isEventDeleted ev = true := by
    unfold isEventDeleted
    rw [hs]
    simp [truthy, hemp, hup]
  refine ⟨hdel, ?_⟩
  unfold processMainEvent
  simp [hdel]

/-- C6 witness: a concrete cancelled event with a valid RRULE. -/
theorem C6_witness :
    processMainEvent (fun _ _ => none) 1709985600000 50 []
      ⟨⟨[("RRULE", "FREQ=DAILY;COUNT=5"), ("DTSTART", "20240310T090000Z"),
         ("STATUS", "Cancelled"), ("UID", "u1")], [], [], []⟩, []⟩ = some [] :=
  (C6_cancelled_base_event_contributes_nothing (fun _ _ => none) 1709985600000 50 []
    ⟨[("RRULE", "FREQ=DAILY;COUNT=5"), ("DTSTART", "20240310T090000Z"),
      ("STATUS", "Cancelled"), ("UID", "u1")], [], [], []⟩ [] "Cancelled"
    (by decide) (by decide) (by decide)).2

/-! ### Claim C7 -/

/-- C7: the collaborator boundary.  A missing (or empty, hence falsy) url
parameter yields the descriptive body without invoking the engine; a
non-successful fetch yields the descriptive error body without invoking the
engine; otherwise the fetched text is parsed and the filtered, sorted
occurrence list is the response body. -/
theorem C7_main_boundary (zoneOff : ZoneOracle) (now : Int) (fuel : Nat)
    (fetchO : String → FetchResp) (url : Option String) :
    (truthy url = false →
      mainHandler zoneOff now fuel fetchO url =
        some (MainBody.message "No URL provided")) ∧
    (∀ u, url = some u → u ≠ "" → (fetchO u).ok = false →
      mainHandler zoneOff now fuel fetchO url =
        some (MainBody.message ("Error fetching data: " ++ (fetchO u).statusText))) ∧
    (∀ u, url = some u → u ≠ "" → (fetchO u).ok = true →
      mainHandler zoneOff now fuel fetchO url =
        (parseICS zoneOff now fuel (fetchO u).text).map
          (fun evs => MainBody.events (filterAndSortEvents now evs))) := by
  refine ⟨?_, ?_, ?_⟩
  · intro h
    unfold mainHandler
    simp [h]
  · intro u hu hne hok
    subst hu
    have ht : truthy (some u) = true := by simp [truthy, isEmpty_false_of_ne u hne]
    unfold mainHandler
    simp [ht, hok]
  · intro u hu hne hok
    subst hu
    have ht : truthy (some u) = true := by simp [truthy, isEmpty_false_of_ne u hne]
    unfold mainHandler
    simp [ht, hok]

/-- C7 witness: a failing fetch at a concrete url. -/
theorem C7_witness :
    mainHandler (fun _ _ => none) 0 0 (fun _ => ⟨false, "Not Found", ""⟩)
      (some "https://example.org/cal.ics") =
      some (MainBody.message "Error fetching data: Not Found") :=
  (C7_main_boundary (fun _ _ => none) 0 0 (fun _ => ⟨false, "Not Found", ""⟩)
    (some "https://example.org/cal.ics")).2.1 "https://example.org/cal.ics"
    rfl (by decide) rfl

/-! ### Claim C9 -/

/-- The §3 invariant: no field of a record is present as the empty string. -/
def noEmptyFields (o : Occurrence) : Prop :=
  o.start ≠ some "" ∧ o.stop ≠ some "" ∧ o.title ≠ some "" ∧
    o.description ≠ some "" ∧ o.address ≠ some ""

theorem noEmpty_createNormalEvent (a b : String) (ed : EventCore) :
    noEmptyFields (createNormalEvent a b ed) := by
  unfold createNormalEvent noEmptyFields
  refine ⟨?_, ?_, ?_, ?_, ?_⟩ <;>
    (dsimp only; split_ifs with h <;> simp_all [String.isEmpty_iff])

theorem noEmpty_createExceptionEvent (exc : EventData) (zoneOff : ZoneOracle)
    (o : Occurrence) (h : createExceptionEvent exc zoneOff = some o) :
    noEmptyFields o := by
  unfold createExceptionEvent at h
  simp only [bind, Option.bind_eq_some] at h
  obtain ⟨start, h1, h⟩ := h
  obtain ⟨endv, h2, h⟩ := h
  simp only [pure, Option.some.injEq] at h
  subst h
  unfold noEmptyFields
  refine ⟨?_, ?_, ?_, ?_, ?_⟩ <;>
    (dsimp only; split_ifs with hh <;> simp_all [String.isEmpty_iff])

theorem noEmpty_createEventFromData (ev : RawEvent) (tz : List (String × String))
    (zoneOff : ZoneOracle) (o : Occurrence)
    (h : createEventFromData ev tz zoneOff = some (some o)) :
    noEmptyFields o := by
  unfold createEventFromData at h
  simp only [bind, Option.bind_eq_some] at h
  obtain ⟨start, h1, h⟩ := h
  obtain ⟨endv, h2, h⟩ := h
  simp only [pure, Option.some.injEq] at h
  rcases hse : start.isEmpty with _ | _
  · rw [if_pos (by simp [hse])] at h
    rw [Option.some.injEq] at h
    subst h
    unfold noEmptyFields
    refine ⟨?_, ?_, ?_, ?_, ?_⟩ <;>
      (dsimp only; split_ifs with hh <;> simp_all [String.isEmpty_iff])
  · simp [hse] at h

theorem noEmpty_createOccurrence (cur : Option Int) (ed : EventCore)
    (durationMs : Option Int) (exdates : List String)
    (excMap : List (String × EventData)) (zoneOff : ZoneOracle) (o : Occurrence)
    (h : createOccurrence cur ed durationMs exdates excMap zoneOff = some (some o)) :
    noEmptyFields o := by
  unfold createOccurrence at h
  match cur with
  | none => exact absurd h (by simp)
  | some t =>
    dsimp only at h
    split_ifs at h with hex
    · exact absurd h (by simp)
    · rcases hm : mapGet excMap (tentativeStart t ed) with _ | exc <;>
        rw [hm] at h <;> (try dsimp only at h)
      · rw [Option.some.injEq, Option.some.injEq] at h
        subst h
        exact noEmpty_createNormalEvent _ _ _
      · rcases hc : createExceptionEvent exc zoneOff with _ | o' <;> rw [hc] at h
        · exact absurd h (by simp)
        · have h2 : o' = o := by simpa using h
          subst h2
          exact noEmpty_createExceptionEvent exc zoneOff o' hc

theorem noEmpty_genLoop (zoneOff : ZoneOracle) (now : Int) (ed : EventCore)
    (freq : Option String) (untilDate : Option Int) (maxOcc : Int)
    (interval : Option Int) (byday : Option (List String))
    (exdates : List String) (excMap : List (String × EventData))
    (durationMs : Option Int) :
    ∀ (fuel : Nat) (cur : Option Int) (cnt : Int) (res : List Occurrence),
      genLoop zoneOff now ed freq untilDate maxOcc interval byday exdates excMap
        durationMs fuel cur cnt = some res → ∀ o ∈ res, noEmptyFields o := by
  intro fuel
  induction fuel with
  | zero =>
    intro cur cnt res h o ho
    rw [genLoop] at h
    rw [Option.some.injEq] at h
    subst h
    exact absurd ho (by simp)
  | succ fuel ih =>
    intro cur cnt res h o ho
    rw [genLoop] at h
    split_ifs at h with h1 h2 h3
    · rw [Option.some.injEq] at h; subst h; exact absurd ho (by simp)
    · rcases hc : createOccurrence cur ed durationMs exdates excMap zoneOff with
        _ | oc <;> rw [hc] at h
      · exact absurd h (by simp)
      · rcases oc with _ | occ
        · exact ih _ _ _ h o ho
        · rcases hr : genLoop zoneOff now ed freq untilDate maxOcc interval byday
            exdates excMap durationMs fuel
            (advanceToNextDate cur freq interval byday) (cnt + 1) with _ | rest <;>
            rw [hr] at h
          · exact absurd h (by simp)
          · simp only [Option.map_some'] at h
            rw [Option.some.injEq] at h
            subst h
            rcases List.mem_cons.mp ho with ho1 | ho1
            · rw [ho1]
              exact noEmpty_createOccurrence cur ed durationMs exdates
                excMap zoneOff occ hc
            · exact ih _ _ _ hr o ho1
    · exact ih _ _ _ h o ho
    · rw [Option.some.injEq] at h; subst h; exact absurd ho (by simp)

theorem noEmpty_generateOccurrences (zoneOff : ZoneOracle) (now : Int) (fuel : Nat)
    (ed : EventCore) (rp : RRuleParams) (exdates : List String)
    (excMap : List (String × EventData)) (res : List Occurrence)
    (h : generateOccurrences zoneOff now fuel ed rp exdates excMap = some res) :
    ∀ o ∈ res, noEmptyFields o := by
  unfold generateOccurrences at h
  split_ifs at h with h1
  · dsimp only at h
    exact noEmpty_genLoop zoneOff now ed rp.freq _ _ rp.interval rp.byday exdates
      excMap _ fuel _ 0 res h
  · rw [Option.some.injEq] at h; subst h; intro o ho; exact absurd ho (by simp)

theorem noEmpty_generateRecurringEvents (zoneOff : ZoneOracle) (now : Int)
    (fuel : Nat) (ev : RawEvent) (tz : List (String × String))
    (excs : List EventData) (res : List Occurrence)
    (h : generateRecurringEvents zoneOff now fuel ev tz excs = some res) :
    ∀ o ∈ res, noEmptyFields o := by
  unfold generateRecurringEvents at h
  split_ifs at h with h1
  · simp only [bind, Option.bind_eq_some] at h
    obtain ⟨start, hs, h⟩ := h
    split_ifs at h with h2
    · simp only [pure, Option.some.injEq] at h
      subst h; intro o ho; exact absurd ho (by simp)
    · simp only [bind, Option.bind_eq_some] at h
      obtain ⟨endv, he, h⟩ := h
      obtain ⟨exdates, hx, h⟩ := h
      obtain ⟨excMap, hm, h⟩ := h
      exact noEmpty_generateOccurrences zoneOff now fuel _ _ _ _ res h
  · simp only [pure, Option.some.injEq] at h
    subst h; intro o ho; exact absurd ho (by simp)

theorem noEmpty_processMainEvent (zoneOff : ZoneOracle) (now : Int) (fuel : Nat)
    (excs : List (String × List EventData)) (edata : EventData)
    (res : List Occurrence)
    (h : processMainEvent zoneOff now fuel excs edata = some res) :
    ∀ o ∈ res, noEmptyFields o := by
  unfold processMainEvent at h
  split_ifs at h with h1 h2
  · rw [Option.some.injEq] at h; subst h; intro o ho; exact absurd ho (by simp)
  · exact noEmpty_generateRecurringEvents zoneOff now fuel _ _ _ res h
  · rcases hc : createEventFromData edata.event edata.timezones zoneOff with
      _ | r <;> rw [hc] at h
    · exact absurd h (by simp)
    · simp only [Option.map_some'] at h
      rw [Option.some.injEq] at h
      subst h
      rcases r with _ | occ
      · intro o ho; exact absurd ho (by simp)
      · intro o ho
        rcases List.mem_singleton.mp ho with rfl
        exact noEmpty_createEventFromData _ _ _ _ hc

theorem noEmpty_parseICS (zoneOff : ZoneOracle) (now : Int) (fuel : Nat)
    (ics : String) (evs : List Occurrence)
    (h : parseICS zoneOff now fuel ics = some evs) :
    ∀ o ∈ evs, noEmptyFields o := by
  have key : ∀ (excs : List (String × List EventData)) (ms : List EventData)
      (acc : List Occurrence), (∀ o ∈ acc, noEmptyFields o) →
      ∀ evs', ms.foldlM
        (fun acc m => (processMainEvent zoneOff now fuel excs m).map (acc ++ ·))
        acc = some evs' →
      ∀ o ∈ evs', noEmptyFields o := by
    intro excs ms
    induction ms with
    | nil =>
      intro acc hacc evs' h o ho
      simp only [List.foldlM_nil, pure, Option.some.injEq] at h
      subst h
      exact hacc o ho
    | cons m ms ih =>
      intro acc hacc evs' h o ho
      simp only [List.foldlM_cons] at h
      rcases hp : processMainEvent zoneOff now fuel excs m with _ | lst <;>
        rw [hp] at h
      · simp only [Option.map_none'] at h
        exact absurd h (by simp [bind])
      · simp only [Option.map_some'] at h
        have h' : ms.foldlM
            (fun acc m => (processMainEvent zoneOff now fuel excs m).map (acc ++ ·))
            (acc ++ lst) = some evs' := by
          simpa [bind] using h
        refine ih (acc ++ lst) ?_ evs' h' o ho
        intro o' ho'
        rcases List.mem_append.mp ho' with hm | hm
        · exact hacc o' hm
        · exact noEmpty_processMainEvent zoneOff now fuel excs m lst hp o' hm
  unfold parseICS at h
  dsimp only at h
  exact key (parseEventsFromLines (unfoldICSLines ics)).excs
    (parseEventsFromLines (unfoldICSLines ics)).mains []
    (by intro o ho; exact absurd ho (by simp)) evs h

/-- C9: every record in the engine's final output carries a non-empty
start field (occurrences lacking a start are discarded by the Result
Selector before output), and no field of any output record is present as
an empty string — absent values are omitted from the record. -/
theorem C9_output_invariants (zoneOff : ZoneOracle) (now : Int) (fuel : Nat)
    (ics : String) (evs : List Occurrence)
    (h : parseICS zoneOff now fuel ics = some evs) :
    ∀ o ∈ filterAndSortEvents now evs,
      (∃ s, o.start = some s ∧ s ≠ "") ∧ noEmptyFields o := by
  intro o ho
  unfold filterAndSortEvents at ho
  dsimp only at ho
  have ho2 := List.mem_of_mem_take ho
  have ho3 := (List.mergeSort_perm _ occLe).mem_iff.mp ho2
  have hpred := (List.mem_filter.mp ho3).2
  have hoevs := (List.mem_filter.mp ho3).1
  refine ⟨?_, noEmpty_parseICS zoneOff now fuel ics evs h o hoevs⟩
  rcases ht : truthy o.start with _ | _
  · rw [ht] at hpred
    simp at hpred
  · rcases hs : o.start with _ | s
    · rw [hs] at ht
      simp [truthy] at ht
    · refine ⟨s, rfl, ?_⟩
      rw [hs] at ht
      unfold truthy at ht
      simp only [Bool.not_eq_true'] at ht
      exact (String.isEmpty_iff s).not.mp (by simp [ht])

/-- C9 witness: a concrete feed, evaluated through the whole pipeline. -/
theorem C9_witness :
    (∃ s, (Occurrence.mk (some "2024-03-15") (some "2024-03-16") (some "Trip")
        none none).start = some s ∧ s ≠ "") ∧
      noEmptyFields (Occurrence.mk (some "2024-03-15") (some "2024-03-16")
        (some "Trip") none none) :=
  C9_output_invariants (fun _ _ => none) 1709985600000 50
    "BEGIN:VEVENT\nUID:b2\nDTSTART:20240315\nDTEND:20240317\nSUMMARY:Trip\nEND:VEVENT"
    [Occurrence.mk (some "2024-03-15") (some "2024-03-16") (some "Trip") none none]
    (by decide)
    (Occurrence.mk (some "2024-03-15") (some "2024-03-16") (some "Trip") none none)
    (by
      unfold filterAndSortEvents
      dsimp only
      rw [List.filter_cons, if_pos (by decide), List.filter_nil,
        List.mergeSort_singleton]
      decide)

/-! ### Claim C10 -/

/-- C10: the Deletion Classifier spares exception instances.  First
conjunct: during expansion, a non-excluded slot whose tentative start
matches a RECURRENCE-ID exception is emitted through
`createExceptionEvent` — built from the exception instance's own fields —
even when that instance itself is classified deleted
(`isEventDeleted exc.event = true`); no deletion test guards this path.
Second conjunct: the classifier guards only the base event — a
non-deleted recurring base proceeds to recurrence expansion with its full
exception list, whatever deletion markers those exceptions carry. -/
theorem C10_deletion_classifier_spares_exception_instances
    (t : Int) (ed : EventCore) (durationMs : Option Int) (exdates : List String)
    (excMap : List (String × EventData)) (zoneOff : ZoneOracle) (exc : EventData)
    (now : Int) (fuel : Nat) (excs : List (String × List EventData))
    (hdel : isEventDeleted exc.event = true)
    (hm : mapGet excMap (tentativeStart t ed) = some exc)
    (hnx : isDateExcluded (tentativeStart t ed) exdates
      (shapeDashDate ed.start.data) = false) :
    createOccurrence (some t) ed durationMs exdates excMap zoneOff =
      (createExceptionEvent exc zoneOff).map some ∧
    (∀ base : EventData, isEventDeleted base.event = false →
      truthy (getProp base.event "RRULE") = true →
      processMainEvent zoneOff now fuel excs base =
        generateRecurringEvents zoneOff now fuel base.event base.timezones
          (match getProp base.event "UID" with
           | some u => (excGet excs u).getD []
           | none => [])) := by
  constructor
  · unfold createOccurrence
    dsimp only
    rw [if_neg (by simp [hnx]), hm]
  · intro base hb hr
    unfold processMainEvent
    simp [hb, hr]

def edC10 : EventCore :=
  ⟨"2024-03-10T09:00:00Z", "2024-03-10T10:00:00Z", "Standup", "", ""⟩

/-- A cancelled modified instance: it carries STATUS:CANCELLED and so is
itself classified deleted. -/
def excC10 : EventData :=
  ⟨⟨[("STATUS", "CANCELLED"), ("SUMMARY", "Moved standup"),
     ("DTSTART", "20240311T110000Z"), ("RECURRENCE-ID", "20240311T090000Z"),
     ("UID", "u1")], [], [], []⟩, []⟩

/-- C10 witness: at the 2024-03-11T09:00:00Z slot the cancelled exception
instance is still emitted, through its own fields. -/
theorem C10_witness :
    createOccurrence (some 1710147600000) edC10 (some 3600000) []
        [("2024-03-11T09:00:00Z", excC10)] (fun _ _ => none) =
      (createExceptionEvent excC10 (fun _ _ => none)).map some :=
  (C10_deletion_classifier_spares_exception_instances 1710147600000 edC10
    (some 3600000) [] [("2024-03-11T09:00:00Z", excC10)] (fun _ _ => none) excC10
    0 0 [] (by rfl) (by rfl) (by rfl)).1

/-! ### Claim C5 -/

theorem civilOf_eq_iff (a b : Int) : civilOf a = civilOf b ↔ tsDay a = tsDay b := by
  constructor
  · intro h
    have h2 := congrArg daysFromCivil h
    rw [civilOf, civilOf, daysFromCivil_civilFromDays, daysFromCivil_civilFromDays]
      at h2
    exact h2
  · intro h
    rw [civilOf, civilOf, h]

theorem civil_components_eq_iff (a b : Int) :
    ((civilOf a).year = (civilOf b).year ∧ (civilOf a).month = (civilOf b).month ∧
      (civilOf a).day = (civilOf b).day) ↔ civilOf a = civilOf b := by
  constructor
  · intro ⟨h1, h2, h3⟩
    show (⟨(civilOf a).year, (civilOf a).month, (civilOf a).day⟩ : CivilDate) =
      ⟨(civilOf b).year, (civilOf b).month, (civilOf b).day⟩
    rw [h1, h2, h3]
  · intro h
    rw [h]
    exact ⟨rfl, rfl, rfl⟩

/-- The componentwise year/month/day/hour/minute comparison of the source
is exactly equality of the two instants truncated to the minute: the
second-level (and millisecond-level) parts are what gets ignored. -/
theorem minuteComponents_eq_iff (a b : Int) :
    ((civilOf a).year = (civilOf b).year ∧ (civilOf a).month = (civilOf b).month ∧
      (civilOf a).day = (civilOf b).day ∧ jsGetHours a = jsGetHours b ∧
      jsGetMinutes a = jsGetMinutes b) ↔ a / 60000 = b / 60000 := by
  rw [show ((civilOf a).year = (civilOf b).year ∧ (civilOf a).month = (civilOf b).month ∧
      (civilOf a).day = (civilOf b).day ∧ jsGetHours a = jsGetHours b ∧
      jsGetMinutes a = jsGetMinutes b) ↔
      (((civilOf a).year = (civilOf b).year ∧ (civilOf a).month = (civilOf b).month ∧
      (civilOf a).day = (civilOf b).day) ∧ jsGetHours a = jsGetHours b ∧
      jsGetMinutes a = jsGetMinutes b) from by tauto]
  rw [civil_components_eq_iff, civilOf_eq_iff]
  unfold tsDay jsGetHours jsGetMinutes tsTod msPerDay
  omega

theorem listAny_ext (l : List String) (f g : String → Bool) (h : ∀ x, f x = g x) :
    l.any f = l.any g := by
  induction l with
  | nil => rfl
  | cons x xs ih => simp only [List.any_cons, h x, ih]

/-- C5: exclusion dates drop exactly the matching tentative occurrence
without consuming a COUNT slot.  Conjunct 1: at an excluded slot one loop
iteration produces nothing and continues at the next cursor with the SAME
count, so a later occurrence takes the slot.  Conjunct 2: at a
non-excluded slot with no exception, the iteration emits the occurrence
and the count advances.  Conjunct 3: for timed events the exclusion test
is equality of the instants truncated to the minute (seconds ignored).
Conjunct 4: for all-day events it is same-calendar-day string equality. -/
theorem C5_exclusion_drops_slot_without_consuming_count
    (zoneOff : ZoneOracle) (now : Int) (ed : EventCore) (freq : Option String)
    (untilDate : Option Int) (maxOcc : Int) (interval : Option Int)
    (byday : Option (List String)) (exdates : List String)
    (excMap : List (String × EventData)) (durationMs : Option Int)
    (fuel : Nat) (t : Int) (cnt : Int)
    (hcnt : cnt < maxOcc) (hhor : t ≤ now + twoYearsMs)
    (huntil : untilExceeded untilDate (some t) = false)
    (hinc : shouldIncludeDate (some t) freq byday = true) :
    (isDateExcluded (tentativeStart t ed) exdates (shapeDashDate ed.start.data) =
        true →
      genLoop zoneOff now ed freq untilDate maxOcc interval byday exdates excMap
          durationMs (fuel + 1) (some t) cnt =
        genLoop zoneOff now ed freq untilDate maxOcc interval byday exdates excMap
          durationMs fuel (advanceToNextDate (some t) freq interval byday) cnt) ∧
    (isDateExcluded (tentativeStart t ed) exdates (shapeDashDate ed.start.data) =
        false →
      mapGet excMap (tentativeStart t ed) = none →
      genLoop zoneOff now ed freq untilDate maxOcc interval byday exdates excMap
          durationMs (fuel + 1) (some t) cnt =
        (genLoop zoneOff now ed freq untilDate maxOcc interval byday exdates excMap
          durationMs fuel (advanceToNextDate (some t) freq interval byday)
          (cnt + 1)).map
          (createNormalEvent (tentativeStart t ed) (tentativeEnd t ed durationMs)
            ed :: ·)) ∧
    (∀ s : String, isDateExcluded s exdates false = exdates.any (fun x =>
      match jsParseDate x, jsParseDate s with
      | some a, some b => a / 60000 == b / 60000
      | _, _ => false)) ∧
    (∀ s : String, isDateExcluded s exdates true =
      exdates.any (fun x => isoDatePart x == s)) := by
  have hguard : (decide (cnt < maxOcc) &&
      cursorWithinHorizon (some t) (now + twoYearsMs)) = true := by
    simp [cursorWithinHorizon, hcnt, hhor]
  refine ⟨?_, ?_, ?_, ?_⟩
  · intro hex
    have hco : createOccurrence (some t) ed durationMs exdates excMap zoneOff =
        some none := by
      unfold createOccurrence
      dsimp only
      rw [if_pos hex]
    conv_lhs => rw [genLoop]
    rw [if_pos hguard, if_neg (by simp [huntil]), if_pos hinc, hco]
  · intro hnex hnom
    have hco : createOccurrence (some t) ed durationMs exdates excMap zoneOff =
        some (some (createNormalEvent (tentativeStart t ed)
          (tentativeEnd t ed durationMs) ed)) := by
      unfold createOccurrence
      dsimp only
      rw [if_neg (by simp [hnex]), hnom]
    conv_lhs => rw [genLoop]
    rw [if_pos hguard, if_neg (by simp [huntil]), if_pos hinc, hco]
  · intro s
    unfold isDateExcluded
    refine listAny_ext _ _ _ (fun x => ?_)
    rw [if_neg (by simp)]
    rcases jsParseDate x with _ | a <;> rcases hs : jsParseDate s with _ | b <;>
      simp only [hs]
    rw [Bool.eq_iff_iff]
    simp only [Bool.and_eq_true, beq_iff_eq, and_assoc]
    exact minuteComponents_eq_iff a b
  · intro s
    unfold isDateExcluded
    refine listAny_ext _ _ _ (fun x => ?_)
    rw [if_pos rfl]

def edC5 : EventCore := ⟨"2024-03-10T09:00:00Z", "", "Sync", "", ""⟩

/-- C5 witness: the 2024-03-11T09:00:00Z slot matches the exclusion date
2024-03-11T09:00:30Z (seconds differ, minute agrees), so the iteration
passes the count through unchanged. -/
theorem C5_witness :
    genLoop (fun _ _ => none) 1709985600000 edC5 (some "DAILY") none 5 (some 1)
        none ["2024-03-11T09:00:30Z"] [] (some 0) 3 (some 1710147600000) 0 =
      genLoop (fun _ _ => none) 1709985600000 edC5 (some "DAILY") none 5 (some 1)
        none ["2024-03-11T09:00:30Z"] [] (some 0) 2
        (advanceToNextDate (some 1710147600000) (some "DAILY") (some 1) none) 0 :=
  (C5_exclusion_drops_slot_without_consuming_count (fun _ _ => none) 1709985600000
    edC5 (some "DAILY") none 5 (some 1) none ["2024-03-11T09:00:30Z"] [] (some 0)
    2 1710147600000 0 (by decide) (by decide) (by rfl) (by rfl)).1 (by decide)

/-! ### Claim C4 -/

/-- One `DAILY` advance moves the cursor forward by exactly `interval`
days. -/
theorem advanceToNextDate_daily (t i : Int) :
    advanceToNextDate (some t) (some "DAILY") (some i) none =
      some (t + i * msPerDay) := by
  have h : advanceToNextDate (some t) (some "DAILY") (some i) none =
      some (jsSetDate t (jsGetDate t + i)) := rfl
  rw [h, jsSetDate_eq]
  ring_nf

/-- The loop on a `DAILY` rule with no exclusions and no exceptions: from
cursor `t` and count `cnt` with `m = M - cnt` slots left, it emits exactly
the `m` occurrences at `t + k * interval` days. -/
theorem genLoop_daily_run (zoneOff : ZoneOracle) (now : Int) (ed : EventCore)
    (i : Int) (durationMs : Option Int) (M : Int) :
    ∀ (m : Nat) (t cnt : Int) (fuel : Nat), m ≤ fuel → cnt + m = M →
      (∀ k : Nat, k < m → t + (k : Int) * (i * msPerDay) ≤ now + twoYearsMs) →
      genLoop zoneOff now ed (some "DAILY") none M (some i) none [] []
          durationMs fuel (some t) cnt =
        some ((List.range m).map (fun (k : Nat) =>
          createNormalEvent (tentativeStart (t + (k : Int) * (i * msPerDay)) ed)
            (tentativeEnd (t + (k : Int) * (i * msPerDay)) ed durationMs) ed)) := by
  intro m
  induction m with
  | zero =>
    intro t cnt fuel hf hM hhor
    have hguard : decide (cnt < M) = false := by
      simp only [decide_eq_false_iff_not]
      omega
    cases fuel with
    | zero => rw [genLoop]; simp
    | succ f =>
      rw [genLoop, hguard]
      simp
  | succ m ih =>
    intro t cnt fuel hf hM hhor
    match fuel, hf with
    | Nat.succ f, hf =>
      have hcnt : cnt < M := by omega
      have hhor0 : t ≤ now + twoYearsMs := by
        have := hhor 0 (by omega)
        simpa using this
      have hguard : (decide (cnt < M) &&
          cursorWithinHorizon (some t) (now + twoYearsMs)) = true := by
        simp [cursorWithinHorizon, hcnt, hhor0]
      have hco : createOccurrence (some t) ed durationMs [] [] zoneOff =
          some (some (createNormalEvent (tentativeStart t ed)
            (tentativeEnd t ed durationMs) ed)) := by
        unfold createOccurrence
        dsimp only
        rw [if_neg (by simp [isDateExcluded])]
        rfl
      rw [genLoop, if_pos hguard, if_neg (by simp [untilExceeded]),
        if_pos (by rfl), hco, advanceToNextDate_daily,
        ih (t + i * msPerDay) (cnt + 1) f (by omega) (by omega)
          (fun k hk => by
            have h2 : t + i * msPerDay + (k : Int) * (i * msPerDay) =
                t + ((k : Int) + 1) * (i * msPerDay) := by ring
            rw [h2]
            have h3 := hhor (k + 1) (by omega)
            push_cast at h3
            exact h3)]
      refine congrArg some ?_
      rw [List.range_succ_eq_map, List.map_cons, List.map_map]
      refine List.cons_eq_cons.mpr ⟨?_, ?_⟩
      · norm_num
      · refine List.map_congr_left (fun k _ => ?_)
        have h3 : ((Nat.succ k : Nat) : Int) = (k : Int) + 1 := by push_cast; ring
        simp only [Function.comp_apply, h3]
        rw [show t + i * msPerDay + (k : Int) * (i * msPerDay) =
            t + ((k : Int) + 1) * (i * msPerDay) from by ring]

def edC4 : EventCore := ⟨"2030-01-01T00:00:00Z", "", "Far future", "", ""⟩

/-- C4 counterexample: a well-formed `FREQ=DAILY;COUNT=5` event whose
start lies beyond the expander's two-year horizon generates zero
occurrences, not five — the horizon guard stops the loop before any slot
is emitted, with no exclusion involved. -/
theorem C4_counterexample :
    (parseRRule "FREQ=DAILY;COUNT=5").freq = some "DAILY" ∧
    (parseRRule "FREQ=DAILY;COUNT=5").count = some 5 ∧
    (generateOccurrences (fun _ _ => none) 0 50 edC4
        (parseRRule "FREQ=DAILY;COUNT=5") [] []).map List.length = some 0 := by
  decide

/-- C4 (amended): a `FREQ=DAILY;COUNT=5` rule with no exclusion dates and
no exceptions generates exactly 5 occurrences at starts spaced exactly
`INTERVAL` days apart — PROVIDED all five slots lie within the two-year
generation horizon (the unamended claim fails beyond it, see the
counterexample) and the loop fuel covers the five iterations. -/
theorem C4_daily_count5_within_horizon
    (zoneOff : ZoneOracle) (now : Int) (ed : EventCore) (rp : RRuleParams)
    (i t0 : Int) (fuel : Nat)
    (hfreq : rp.freq = some "DAILY") (hcount : rp.count = some 5)
    (huntil : rp.untilv = none) (hint : rp.interval = some i)
    (hbyday : rp.byday = none)
    (hstart : jsParseDate ed.start = some t0)
    (hhor : ∀ k : Nat, k < 5 → t0 + (k : Int) * (i * msPerDay) ≤ now + twoYearsMs)
    (hfuel : 5 ≤ fuel) :
    generateOccurrences zoneOff now fuel ed rp [] [] =
      some ((List.range 5).map (fun (k : Nat) =>
        createNormalEvent
          (tentativeStart (t0 + (k : Int) * (i * msPerDay)) ed)
          (tentativeEnd (t0 + (k : Int) * (i * msPerDay)) ed
            (calculateDuration ed.start ed.endv)) ed)) := by
  unfold generateOccurrences
  rw [if_neg (by simp [hfreq, truthy]; rfl)]
  dsimp only
  have hl : setupDateLimits ed.start rp.untilv rp.count zoneOff =
      (some t0, none, 5) := by
    unfold setupDateLimits
    rw [huntil, hcount, hstart]
    norm_num
  rw [hl, hfreq, hint, hbyday]
  exact genLoop_daily_run zoneOff now ed i (calculateDuration ed.start ed.endv) 5
    5 t0 0 fuel hfuel (by norm_num) hhor

def edC4w : EventCore := ⟨"2024-03-10T09:00:00Z", "", "Checkup", "", ""⟩

/-- C4 witness: `FREQ=DAILY;COUNT=5;INTERVAL=2` from a near start yields
the five starts two days apart. -/
theorem C4_witness :
    generateOccurrences (fun _ _ => none) 1709985600000 50 edC4w
        (parseRRule "FREQ=DAILY;COUNT=5;INTERVAL=2") [] [] =
      some ((List.range 5).map (fun (k : Nat) =>
        createNormalEvent
          (tentativeStart (1710061200000 + (k : Int) * (2 * msPerDay)) edC4w)
          (tentativeEnd (1710061200000 + (k : Int) * (2 * msPerDay)) edC4w
            (calculateDuration edC4w.start edC4w.endv)) edC4w)) :=
  C4_daily_count5_within_horizon (fun _ _ => none) 1709985600000 edC4w
    (parseRRule "FREQ=DAILY;COUNT=5;INTERVAL=2") 2 1710061200000 50
    (by decide) (by decide) (by decide) (by decide) (by decide) (by decide)
    (by decide) (by decide)

/-! ### Claim C1 -/

/-- Spec-side: the instant 23:59:59.999 of the calendar day before the
day holding `now` — the "end of the previous calendar day relative to
current wall-clock time" the selector cuts at. -/
def endOfPreviousDay (now : Int) : Int :=
  daysFromCivil (predCivil (civilOf now)) * msPerDay + 86399999

/-- Spec-side, the claim's words taken literally: the effective end is
the end field IF PRESENT, else the start field, and nothing is required
of the start. -/
def keepSpecLiteral (now : Int) (o : Occurrence) : Bool :=
  match (match o.stop with | some e => some e | none => o.start) with
  | some s =>
    match jsParseDate s with
    | some et => decide (endOfPreviousDay now < et)
    | none => false
  | none => false

/-- Spec-side, corrected: the occurrence must carry a truthy (non-empty)
start, and the effective end follows JS truthiness — an empty-string end
field falls back to the start. -/
def keepCorrected (now : Int) (o : Occurrence) : Bool :=
  truthy o.start &&
    (match jsParseDate ((jsOr o.stop o.start).getD "") with
     | some et => decide (endOfPreviousDay now < et)
     | none => false)

/-- C1 counterexample: an occurrence with no start but a far-future end.
Its literal effective end is strictly after the cutoff, so the claim
("returns exactly those occurrences whose effective end is after the
cutoff") would keep it — but the selector's filter first requires a
truthy start and returns nothing. -/
theorem C1_counterexample :
    keepSpecLiteral 0
        (Occurrence.mk none (some "2999-01-01T00:00:00Z") (some "Late")
          none none) = true ∧
      filterAndSortEvents 0
        [Occurrence.mk none (some "2999-01-01T00:00:00Z") (some "Late")
          none none] = [] := by
  constructor
  · decide
  · unfold filterAndSortEvents
    dsimp only
    rw [List.filter_cons, if_neg (by decide), List.filter_nil,
      List.mergeSort_nil]
    rfl

/-- The selector's `yesterday` is exactly the end of the previous
calendar day. -/
theorem yesterday_eq_endOfPreviousDay (now : Int) :
    jsSetHours (jsSetDate now (jsGetDate now - 1)) 23 59 59 999 =
      endOfPreviousDay now := by
  rw [jsSetDate_eq, jsSetHours_eq]
  unfold endOfPreviousDay civilOf
  rw [daysFromCivil_pred _ (validCivil_civilFromDays (tsDay now)),
    daysFromCivil_civilFromDays]
  have h1 : now + (jsGetDate now - 1 - jsGetDate now) * msPerDay =
      now - msPerDay := by ring
  rw [h1]
  unfold tsDay msPerDay
  omega

theorem occLe_trans (a b c : Occurrence) (h1 : occLe a b = true)
    (h2 : occLe b c = true) : occLe a c = true := by
  unfold occLe at *
  simp only [decide_eq_true_eq] at *
  omega

theorem occLe_total (a b : Occurrence) : (occLe a b || occLe b a) = true := by
  unfold occLe
  simp only [Bool.or_eq_true, decide_eq_true_eq]
  omega

/-- C1 (amended): the Result Selector equals — stage by stage — keeping
exactly the occurrences with a truthy start whose effective end
(truthiness fallback) is strictly after the end of the previous calendar
day, stable-sorting them ascending by start key, and truncating to 25.
The conjuncts: (1) the pipeline equality against the spec-side predicate
and cutoff; (2) the output is sorted ascending by start key; (3) at most
25 records; (4) every output record passes the corrected keep-predicate;
(5) the sort stage is stable — any already-ordered subsequence of the
filtered list survives as a subsequence of the sorted list. -/
theorem C1_selector_characterization (now : Int) (evs : List Occurrence) :
    filterAndSortEvents now evs =
      ((evs.filter (keepCorrected now)).mergeSort occLe).take 25 ∧
    (filterAndSortEvents now evs).Pairwise
      (fun a b => (occSortKey a).getD 0 ≤ (occSortKey b).getD 0) ∧
    (filterAndSortEvents now evs).length ≤ 25 ∧
    (∀ o ∈ filterAndSortEvents now evs, keepCorrected now o = true) ∧
    (∀ c : List Occurrence, c.Pairwise (fun a b => occLe a b = true) →
      c.Sublist (evs.filter (keepCorrected now)) →
      c.Sublist ((evs.filter (keepCorrected now)).mergeSort occLe)) := by
  have h1 : filterAndSortEvents now evs =
      ((evs.filter (keepCorrected now)).mergeSort occLe).take 25 := by
    unfold filterAndSortEvents
    dsimp only
    rw [yesterday_eq_endOfPreviousDay]
    have hf : ∀ e ∈ evs,
        (if truthy e.start then
          match jsParseDate ((jsOr e.stop e.start).getD "") with
          | some et => decide (endOfPreviousDay now < et)
          | none => false
        else false) = keepCorrected now e := by
      intro e _
      unfold keepCorrected
      rcases ht : truthy e.start with _ | _ <;> simp [ht]
    rw [List.filter_congr hf]
  have hsorted := List.sorted_mergeSort occLe_trans occLe_total
    (evs.filter (keepCorrected now))
  refine ⟨h1, ?_, ?_, ?_, ?_⟩
  · rw [h1]
    refine ((hsorted.sublist (List.take_sublist 25 _)).imp ?_)
    intro a b h
    unfold occLe at h
    simpa using h
  · rw [h1]
    exact List.length_take_le 25 _
  · rw [h1]
    intro o ho
    exact (List.mem_filter.mp
      ((List.mergeSort_perm _ occLe).mem_iff.mp (List.mem_of_mem_take ho))).2
  · intro c hpw hsub
    exact List.sublist_mergeSort occLe_trans occLe_total hpw hsub

/-! ### Claim C8 -/

theorem digitVal_digitChar (n : Nat) :
    digitVal (digitChar n) = some ((n % 10 : Nat) : Int) := by
  have h : n % 10 < 10 := Nat.mod_lt _ (by norm_num)
  unfold digitChar
  revert h
  generalize n % 10 = m
  intro h
  interval_cases m <;> decide

theorem digitChar_eq_T_false (n : Nat) : (digitChar n = 'T') = False := by
  have h : n % 10 < 10 := Nat.mod_lt _ (by norm_num)
  unfold digitChar
  revert h
  generalize n % 10 = m
  intro h
  interval_cases m <;> decide

theorem read2_digits (n : Int) (h0 : 0 ≤ n) (h1 : n ≤ 99) :
    read2 (digitChar (n.toNat / 10 % 10)) (digitChar (n.toNat % 10)) = some n := by
  unfold read2
  rw [digitVal_digitChar, digitVal_digitChar]
  simp only [bind, Option.bind]
  congr 1
  omega

theorem read4_digits (y : Int) (h0 : 0 ≤ y) (h1 : y ≤ 9999) :
    read4 (digitChar (y.toNat / 1000 % 10)) (digitChar (y.toNat / 100 % 10))
      (digitChar (y.toNat / 10 % 10)) (digitChar (y.toNat % 10)) = some y := by
  unfold read4 read2
  rw [digitVal_digitChar, digitVal_digitChar, digitVal_digitChar,
    digitVal_digitChar]
  simp only [bind, Option.bind]
  congr 1
  omega

/-- The date part of the UTC rendering of a valid civil day (with a
four-digit year) is its dash rendering. -/
theorem isoDatePart_toISO_day (c : CivilDate) (hval : validCivil c)
    (hy0 : 0 ≤ c.year) (hy9 : c.year ≤ 9999) :
    isoDatePart (dateToISOString (daysFromCivil c * msPerDay)) =
      ⟨pad4 c.year ++ '-' :: pad2 c.month ++ '-' :: pad2 c.day⟩ := by
  have h1 : tsDay (daysFromCivil c * msPerDay) = daysFromCivil c := by
    unfold tsDay msPerDay
    omega
  unfold isoDatePart dateToISOString toISOChars isoYearChars jsGetFullYear
    jsGetDate civilOf
  rw [h1, civilFromDays_daysFromCivil c hval, if_pos ⟨hy0, hy9⟩]
  unfold pad4 pad2
  simp [List.takeWhile_cons, digitChar_eq_T_false]

theorem isAsciiDigit_digitChar (n : Nat) : isAsciiDigit (digitChar n) = true := by
  have h : n % 10 < 10 := Nat.mod_lt _ (by norm_num)
  unfold digitChar
  revert h
  generalize n % 10 = m
  intro h
  interval_cases m <;> decide

/-- C8: the Normalizer's exclusive-end convention.  Conjunct 1, in
general: on any compact date `YYYYMMDD` rendering a valid calendar day of
years 1–9999, the `FULL_DAY_END` path returns the dash rendering of the
PREVIOUS calendar day.  Conjunct 2: the spec's example — an all-day
`DTSTART:20240310` `DTEND:20240312` event expanded with
`FREQ=DAILY;COUNT=2` emits end date 2024-03-11 for the first occurrence
and keeps the one-day duration on the next occurrence. -/
theorem C8_full_day_end_subtracts_one_day
    (zoneOff : ZoneOracle) (y mo d : Int)
    (hy1 : 1 ≤ y) (hy9 : y ≤ 9999) (hm1 : 1 ≤ mo) (hm2 : mo ≤ 12)
    (hd1 : 1 ≤ d) (hd2 : d ≤ daysInMonth y mo) :
    formatDateToISO (some ⟨pad4 y ++ pad2 mo ++ pad2 d⟩) (some "FULL_DAY_END")
        zoneOff =
      some ⟨pad4 (predCivil ⟨y, mo, d⟩).year ++
        '-' :: pad2 (predCivil ⟨y, mo, d⟩).month ++
        '-' :: pad2 (predCivil ⟨y, mo, d⟩).day⟩ ∧
    processMainEvent (fun _ _ => none) 1709985600000 50 []
      ⟨⟨[("RRULE", "FREQ=DAILY;COUNT=2"), ("DTEND", "20240312"),
         ("DTSTART", "20240310"), ("UID", "u8")], [], [], []⟩, []⟩ =
      some [Occurrence.mk (some "2024-03-10") (some "2024-03-11") none none none,
        Occurrence.mk (some "2024-03-11") (some "2024-03-12") none none none] := by
  constructor
  · have hval : validCivil ⟨y, mo, d⟩ := ⟨hm1, hm2, hd1, hd2⟩
    have h31 : daysInMonth y mo ≤ 31 := by
      unfold daysInMonth daysInMonthL
      cases isLeap y <;> simp only [leapInt_true, leapInt_false] <;>
        split_ifs <;> omega
    have hne : (⟨pad4 y ++ pad2 mo ++ pad2 d⟩ : String) ≠ "" := by
      intro hc
      have hc2 := congrArg String.data hc
      unfold pad4 pad2 at hc2
      simp at hc2
    have hUTC : shapeCompactUTC (pad4 y ++ pad2 mo ++ pad2 d) = false := rfl
    have hLoc : shapeCompactLocal (pad4 y ++ pad2 mo ++ pad2 d) = false := rfl
    have hDate : shapeCompactDate (pad4 y ++ pad2 mo ++ pad2 d) = true := by
      unfold pad4 pad2 shapeCompactDate
      simp [isAsciiDigit_digitChar]
    have hparse : jsParseDate ⟨compactToDateChars
        (pad4 y ++ pad2 mo ++ pad2 d)⟩ = some (mkUTC y mo d 0 0 0) := by
      unfold pad4 pad2 compactToDateChars jsParseDate
      simp only [List.cons_append, List.nil_append]
      rw [read4_digits y (by omega) hy9, read2_digits mo (by omega) (by omega),
        read2_digits d (by omega) (by omega)]
      simp only [bind, Option.bind]
      rw [if_pos (show validYMD y mo d = true from by
        unfold validYMD; exact decide_eq_true ⟨hm1, hm2, hd1, hd2⟩)]
      rfl
    have hy0' : 0 ≤ (predCivil ⟨y, mo, d⟩).year := by
      unfold predCivil
      split_ifs <;> dsimp only <;> omega
    have hy9' : (predCivil ⟨y, mo, d⟩).year ≤ 9999 := by
      unfold predCivil
      split_ifs <;> dsimp only <;> omega
    have hredF : ∀ {α : Type} (a b : α), (if (false = true) then a else b) = b :=
      fun a b => rfl
    have hredT : ∀ {α : Type} (a b : α), (if (true = true) then a else b) = a :=
      fun a b => rfl
    unfold formatDateToISO
    dsimp only
    rw [isEmpty_false_of_ne _ hne, hUTC, hLoc, hDate, hredF, hredF, hredF, hredT]
    rw [if_pos rfl, hparse]
    dsimp only
    rw [jsSetDate_eq]
    rw [show mkUTC y mo d 0 0 0 +
        (jsGetDate (mkUTC y mo d 0 0 0) - 1 - jsGetDate (mkUTC y mo d 0 0 0)) *
          msPerDay = daysFromCivil (predCivil ⟨y, mo, d⟩) * msPerDay from by
      rw [daysFromCivil_pred _ hval]; unfold mkUTC; ring]
    rw [isoDatePart_toISO_day _ (validCivil_pred _ hval) hy0' hy9']
  · decide

/-- C8 witness: `20240312` as an end boundary renders as 2024-03-11. -/
theorem C8_witness :
    formatDateToISO (some ⟨pad4 2024 ++ pad2 3 ++ pad2 12⟩)
        (some "FULL_DAY_END") (fun _ _ => none) =
      some ⟨pad4 (predCivil ⟨2024, 3, 12⟩).year ++
        '-' :: pad2 (predCivil ⟨2024, 3, 12⟩).month ++
        '-' :: pad2 (predCivil ⟨2024, 3, 12⟩).day⟩ :=
  (C8_full_day_end_subtracts_one_day (fun _ _ => none) 2024 3 12 (by decide)
    (by decide) (by decide) (by decide) (by decide) (by decide)).1

/-! ### Claim C2 -/

/-- Spec-side: the canonical UTC instant form `YYYY-MM-DDTHH:MM:SSZ`. -/
def canonicalUTCShape : List Char → Bool
  | [a, b, c, d, '-', e, f, '-', g, h, 'T', i, j, ':', k, m, ':', n, o, 'Z'] =>
    [a, b, c, d, e, f, g, h, i, j, k, m, n, o].all isAsciiDigit
  | _ => false

/-- Spec-side: a canonical output per the claim — date-only or UTC
instant. -/
def canonicalISO (s : String) : Bool :=
  shapeDashDate s.data || canonicalUTCShape s.data

/-- The 19-character zone-less local form `YYYY-MM-DDTHH:MM:SS` (what the
compact-local fallback actually emits; canonical in neither sense). -/
def shapeLocal19 : List Char → Bool
  | [a, b, c, d, '-', e, f, '-', g, h, 'T', i, j, ':', k, m, ':', n, o] =>
    [a, b, c, d, e, f, g, h, i, j, k, m, n, o].all isAsciiDigit
  | _ => false

/-- C2 counterexample: a compact local datetime with an absent zone comes
back as the 19-character local string, which is neither of the claim's
two canonical forms. -/
theorem C2_counterexample :
    formatDateToISO (some "20240115T103000") none (fun _ _ => none) =
      some "2024-01-15T10:30:00" ∧
    canonicalISO "2024-01-15T10:30:00" = false := by
  decide

theorem utc_shape_canonical (l : List Char) (h : shapeCompactUTC l = true) :
    canonicalUTCShape (compactToIsoChars l) = true ∧ l ≠ [] := by
  unfold shapeCompactUTC at h
  split at h
  · rename_i a1 a2 a3 a4 a5 a6 a7 a8 a9 a10 a11 a12 a13 a14
    unfold compactToIsoChars canonicalUTCShape
    dsimp only
    exact ⟨h, by simp⟩
  · exact absurd h (by simp)

theorem local_shape_19 (l : List Char) (h : shapeCompactLocal l = true) :
    shapeLocal19 (compactToIsoChars l) = true ∧ shapeCompactUTC l = false ∧
      l ≠ [] := by
  unfold shapeCompactLocal at h
  split at h
  · rename_i a1 a2 a3 a4 a5 a6 a7 a8 a9 a10 a11 a12 a13 a14
    unfold compactToIsoChars shapeLocal19
    dsimp only
    exact ⟨h, rfl, by simp⟩
  · exact absurd h (by simp)

theorem date_shape_dash (l : List Char) (h : shapeCompactDate l = true) :
    shapeDashDate (compactToDateChars l) = true ∧ shapeCompactUTC l = false ∧
      shapeCompactLocal l = false ∧ l ≠ [] := by
  unfold shapeCompactDate at h
  split at h
  · rename_i a1 a2 a3 a4 a5 a6 a7 a8
    unfold compactToDateChars shapeDashDate
    dsimp only
    exact ⟨h, rfl, rfl, by simp⟩
  · exact absurd h (by simp)

/-- C2 (amended): the Normalizer's output is canonical only for the
recognized compact shapes — a compact UTC datetime yields the canonical
UTC instant form, and a compact date (other than the FULL_DAY_END path)
yields the canonical date-only form.  A compact LOCAL datetime with an
absent or empty zone comes back as the 19-character zone-less local
string (no Z, not canonical), an absent or empty input yields the empty
string, and an input of any other shape passes through UNCHANGED — so the
unamended "always one of the two canonical forms" fails (see the
counterexample). -/
theorem C2_output_shapes (ds : String) (tz : Option String)
    (zoneOff : ZoneOracle) :
    (shapeCompactUTC ds.data = true →
      ∃ out, formatDateToISO (some ds) tz zoneOff = some out ∧
        canonicalUTCShape out.data = true) ∧
    (shapeCompactDate ds.data = true → tz ≠ some "FULL_DAY_END" →
      ∃ out, formatDateToISO (some ds) tz zoneOff = some out ∧
        shapeDashDate out.data = true) ∧
    (shapeCompactLocal ds.data = true → tz = none ∨ tz = some "" →
      formatDateToISO (some ds) tz zoneOff = some ⟨compactToIsoChars ds.data⟩ ∧
        shapeLocal19 (compactToIsoChars ds.data) = true) ∧
    (formatDateToISO none tz zoneOff = some "" ∧
      formatDateToISO (some "") tz zoneOff = some "") ∧
    (shapeCompactUTC ds.data = false → shapeCompactLocal ds.data = false →
      shapeCompactDate ds.data = false → ds ≠ "" →
      formatDateToISO (some ds) tz zoneOff = some ds) := by
  have hredF : ∀ {α : Type} (a b : α), (if (false = true) then a else b) = b :=
    fun a b => rfl
  have hredT : ∀ {α : Type} (a b : α), (if (true = true) then a else b) = a :=
    fun a b => rfl
  refine ⟨?_, ?_, ?_, ⟨rfl, rfl⟩, ?_⟩
  · intro hU
    obtain ⟨hcanon, hnil⟩ := utc_shape_canonical ds.data hU
    have hne : ds ≠ "" := fun hc => hnil (by rw [hc])
    refine ⟨⟨compactToIsoChars ds.data⟩, ?_, hcanon⟩
    unfold formatDateToISO
    dsimp only
    rw [isEmpty_false_of_ne _ hne, hU, hredF, hredT]
  · intro hD htz
    obtain ⟨hdash, hU, hL, hnil⟩ := date_shape_dash ds.data hD
    have hne : ds ≠ "" := fun hc => hnil (by rw [hc])
    refine ⟨⟨compactToDateChars ds.data⟩, ?_, hdash⟩
    unfold formatDateToISO
    dsimp only
    rw [isEmpty_false_of_ne _ hne, hU, hL, hD, hredF, hredF, hredF, hredT]
    rw [if_neg htz]
  · intro hL htz
    obtain ⟨h19, hU, hnil⟩ := local_shape_19 ds.data hL
    have hne : ds ≠ "" := fun hc => hnil (by rw [hc])
    refine ⟨?_, h19⟩
    unfold formatDateToISO
    dsimp only
    rw [isEmpty_false_of_ne _ hne, hU, hL, hredF, hredF, hredT]
    rcases htz with rfl | rfl
    · rfl
    · rfl
  · intro hU hL hD hne
    unfold formatDateToISO
    dsimp only
    rw [isEmpty_false_of_ne _ hne, hU, hL, hD, hredF, hredF, hredF, hredF]

/-- C2 witness: a compact UTC input yields a canonical UTC instant. -/
theorem C2_witness :
    ∃ out, formatDateToISO (some "20240115T103000Z") none (fun _ _ => none) =
      some out ∧ canonicalUTCShape out.data = true :=
  (C2_output_shapes "20240115T103000Z" none (fun _ _ => none)).1 (by decide)
